import Mathlib

/-!
Verification development for the micron interpreter (tokenizer/parser/interpreter
pipeline).  The definitions below are a shallow embedding of the Rust sources:
`src/tokenizer.rs` (token data model), `src/parser.rs` (line splitting,
`parse_dot_op`, `parse_func_call`, `parse`) and `src/interpreter.rs`
(`interpret_fun_call`, `interpret_instrs`).  Machine integers (`isize`) are
modelled as `Int`; `usize` indices as `Nat`; the `HashMap` slot and label
tables as association lists with replace-on-insert; Rust panics (out-of-bounds
indexing, `panic!`, `unwrap`) as an explicit `crash`/`panicked` outcome; and
`std::process::exit(0)` as an explicit `exited` outcome.  Recursive functions
carry a fuel parameter; running out of fuel is a separate outcome so that no
fuel-exhausted run is ever confused with a genuine result.
-/

/-- Token data model from `tokenizer.rs` (`enum Token`). -/
inductive Token where
  | Str : String → Token
  | Int : Int → Token
  | Idn : String → Token
  | Til | Col | Smi | Dot | Eol | Dol | Que | Eql | Not | Hsh
deriving Repr, DecidableEq

/-- Token with its half-open byte span, from `tokenizer.rs` (`struct TokenInfo`).
The source field `end` is renamed `stop` because `end` is a Lean keyword. -/
structure TokenInfo where
  token : Token
  start : Nat
  stop : Nat
deriving Repr, DecidableEq

/-- Runtime value, from `parser.rs` (`enum Value`). -/
inductive Value where
  | Str : String → Value
  | Int : Int → Value
  | None : Value
deriving Repr, DecidableEq

mutual

/-- Expression: a literal value or a nested function call, from `parser.rs`
(`enum Expr`; the `Box<Fun>` indirection is implicit in Lean). -/
inductive Expr where
  | Value : Value → Expr
  | FunCall : Fun → Expr

/-- Built-in function calls with their argument expressions, from `parser.rs`
(`enum Fun`). -/
inductive Fun where
  | Set : Expr → Expr → Fun
  | Get : Expr → Fun
  | Write : Expr → Fun
  | Print : Expr → Fun
  | Add : Expr → Expr → Fun
  | Jump : Expr → Fun
  | Equal : Expr → Expr → Fun
  | Convert : Expr → Fun
  | Extract : Expr → Expr → Fun
  | If : Expr → Expr → Fun
  | Input : Fun
  | KeyChar : Fun
  | Text : Expr → Fun
  | Number : Expr → Fun
  | CatchError : Expr → Expr → Fun
  | ThrowError : Expr → Fun
  | Return : Expr → Fun
  | FunJump : Expr → Fun
  | EmptySlot : Fun
  | Exit : Fun

end

/-- Instruction, from `parser.rs` (`enum Instr`); `SetLabel` is declared but
never emitted, exactly as in the source. -/
inductive Instr where
  | SetLabel : String → Instr
  | LabelPlaceHolder : String → Instr
  | FunCall : Fun → Instr

/-- Instruction with its source span, from `parser.rs` (`struct InstrInfo`);
field `end` renamed `stop` (Lean keyword). -/
structure InstrInfo where
  instr : Instr
  start : Nat
  stop : Nat

/-- Parse errors, from `parser.rs` (`enum ParseError`). -/
inductive ParseError where
  | LabelAlreadySet : String → List TokenInfo → ParseError
  | UnexpectedToken : TokenInfo → ParseError
  | InvalidSyntax : ParseError
  | NotEnoughArgument : TokenInfo → Nat → Nat → ParseError
  | UnknownFunctionName : TokenInfo → ParseError

/-- Numeric code of a parse error, from `ParseError::error_code`. -/
def ParseError.error_code : ParseError → Nat
  | .LabelAlreadySet _ _ => 301
  | .UnexpectedToken _ => 302
  | .InvalidSyntax => 303
  | .NotEnoughArgument _ _ _ => 304
  | .UnknownFunctionName _ => 305

/-- Parse error with the offending line and optional note, from `parser.rs`
(`struct ParseErrorInfo`). -/
structure ParseErrorInfo where
  error : ParseError
  line : List TokenInfo
  note : Option String

/-- Result of a parser function.  `ok`/`err` mirror the Rust
`Result<_, ParseErrorInfo>`; `crash` models a Rust panic (out-of-bounds
indexing or an explicit `panic!`); `outOfFuel` marks exhaustion of the fuel
parameter added for the Lean embedding and never corresponds to a source
behaviour. -/
inductive PResult (α : Type) where
  | ok : α → PResult α
  | err : ParseErrorInfo → PResult α
  | crash : PResult α
  | outOfFuel : PResult α

/-- Identifier test from `tokenizer.rs` (`TokenCheck::is_iden`): first
character a letter or underscore, all characters alphanumeric or underscore.
Like the source, it accepts the empty string (the outer loop body never runs). -/
def is_iden (s : String) : Bool :=
  match s.data with
  | [] => true
  | c :: rest =>
    (c.isAlpha || c = '_') && (c :: rest).all (fun d => d.isAlphanum || d = '_')

/-- Dot-operator sugar parser from `parser.rs` (`parse_dot_op`): `.n` becomes
`Get(Int(n))` and reports one consumed token beyond the leading dot.  The
fallback arm indexes `line[1]`, which panics (`crash`) when the dot is the last
token of the line. -/
def parse_dot_op (line : List TokenInfo) : PResult (Nat × Expr) :=
  match line with
  | ⟨.Dot, _, _⟩ :: ⟨.Int n, _, _⟩ :: _ =>
    .ok (1, .FunCall (.Get (.Value (.Int n))))
  | _ =>
    match line.get? 1 with
    | some ti1 => .err ⟨.UnexpectedToken ti1, line, none⟩
    | none => .crash

/-- Arity of a built-in by head identifier, from the first `match` of
`parse_func_call` in `parser.rs`. -/
def funArity (s : String) : Option Nat :=
  match s with
  | "s" => some 2
  | "g" => some 1
  | "w" => some 1
  | "p" => some 1
  | "a" => some 2
  | "j" => some 1
  | "c" => some 1
  | "x" => some 2
  | "i" => some 0
  | "k" => some 0
  | "n" => some 1
  | "t" => some 1
  | "f" => some 1
  | "r" => some 1
  | _ => none

/-- Construction of the `Fun` value from the head token and the collected
argument list, from the final `match` of `parse_func_call` in `parser.rs`.
`none` models the panics of that match (unknown head, or the `args[0]` /
`args[1]` indexing when too few arguments were collected). -/
def buildFun (t : Token) (args : List Expr) : Option Fun :=
  match t with
  | .Idn s =>
    match s, args with
    | "s", a0 :: a1 :: _ => some (.Set a0 a1)
    | "g", a0 :: _ => some (.Get a0)
    | "w", a0 :: _ => some (.Write a0)
    | "p", a0 :: _ => some (.Print a0)
    | "a", a0 :: a1 :: _ => some (.Add a0 a1)
    | "j", a0 :: _ => some (.Jump a0)
    | "c", a0 :: _ => some (.Convert a0)
    | "x", a0 :: a1 :: _ => some (.Extract a0 a1)
    | "i", _ => some .Input
    | "k", _ => some .KeyChar
    | "n", a0 :: _ => some (.Number a0)
    | "t", a0 :: _ => some (.Text a0)
    | "f", a0 :: _ => some (.FunJump a0)
    | "r", a0 :: _ => some (.Return a0)
    | _, _ => none
  | .Que => match args with | a0 :: a1 :: _ => some (.If a0 a1) | _ => none
  | .Eql => match args with | a0 :: a1 :: _ => some (.Equal a0 a1) | _ => none
  | .Hsh => match args with | a0 :: a1 :: _ => some (.CatchError a0 a1) | _ => none
  | .Dol => some .Exit
  | .Til => some .EmptySlot
  | .Not => match args with | a0 :: _ => some (.ThrowError a0) | _ => none
  | _ => none

/-- The `count` computation at the head of `parse_func_call` in `parser.rs`:
arity of the head token, `UnknownFunctionName` for an unrecognized identifier,
panic (`crash`) for a head token that can never start a call. -/
def headCount (line : List TokenInfo) (ti0 : TokenInfo) : PResult Nat :=
  match ti0.token with
  | .Idn s =>
    match funArity s with
    | some n => .ok n
    | none => .err ⟨.UnknownFunctionName ti0, line, none⟩
  | .Que => .ok 2
  | .Eql => .ok 2
  | .Hsh => .ok 2
  | .Dol => .ok 0
  | .Til => .ok 0
  | .Not => .ok 1
  | _ => .crash

mutual

/-- Function-call parser from `parser.rs` (`parse_func_call`).  Determines the
arity from the head token, requires a colon for arity ≥ 1, collects the
arguments via `parse_args`, and returns `(i + c - 1, FunCall fun)` exactly as
the source does.  `crash` models the source's panics (`token_line[0]` on an
empty line, the unreachable-head `panic!`s). -/
def parse_func_call : Nat → List TokenInfo → PResult (Nat × Expr)
  | 0, _ => .outOfFuel
  | f + 1, line =>
    match line with
    | [] => .crash
    | ti0 :: _ =>
      match headCount line ti0 with
      | .ok count =>
        if count = 0 then
          parse_args f line count 1 0 []
        else
          match line.get? 1 with
          | some ti1 =>
            match ti1.token with
            | .Col => parse_args f line count 2 0 []
            | _ => .err ⟨.UnexpectedToken ti1, line, none⟩
          | none => .err ⟨.NotEnoughArgument ti0 0 count, line, none⟩
      | .err e => .err e
      | .crash => .crash
      | .outOfFuel => .outOfFuel

/-- The argument-collection loop of `parse_func_call` (`while c < count`) with
its cursor `i`, argument counter `c` and accumulated `args`, followed by the
construction of the resulting `Fun` once `c` reaches `count`.  Each loop
iteration consumes one unit of fuel. -/
def parse_args : Nat → List TokenInfo → Nat → Nat → Nat → List Expr →
    PResult (Nat × Expr)
  | 0, _, _, _, _, _ => .outOfFuel
  | f + 1, line, count, i, c, args =>
    if c < count then
      match line.get? (c + i) with
      | some ti =>
        match ti.token with
        | .Str s => parse_args f line count i (c + 1) (args ++ [.Value (.Str s)])
        | .Int n => parse_args f line count i (c + 1) (args ++ [.Value (.Int n)])
        | .Idn _ | .Eql | .Que | .Not | .Hsh =>
          match parse_func_call f (line.drop (c + i)) with
          | .ok (di, a) => parse_args f line count (i + di) (c + 1) (args ++ [a])
          | .err e => .err e
          | .crash => .crash
          | .outOfFuel => .outOfFuel
        | .Til => parse_args f line count i (c + 1) (args ++ [.FunCall .EmptySlot])
        | .Dol => parse_args f line count i (c + 1) (args ++ [.FunCall .Exit])
        | .Dot =>
          match parse_dot_op (line.drop (c + i)) with
          | .ok (di, a) => parse_args f line count (i + di) (c + 1) (args ++ [a])
          | .err e => .err e
          | .crash => .crash
          | .outOfFuel => .outOfFuel
        | _ =>
          match line.get? c with
          | some tic => .err ⟨.UnexpectedToken tic, line, none⟩
          | none => .crash
      | none =>
        match line.get? 0 with
        | some ti0 => .err ⟨.NotEnoughArgument ti0 c count, line, none⟩
        | none => .crash
    else
      match line.get? 0 with
      | some ti0 =>
        match buildFun ti0.token args with
        | some fn => .ok (i + c - 1, .FunCall fn)
        | none => .crash
      | none => .crash

end

/-- Accumulating pass of the line splitter in `parse` (`parser.rs`): tokens are
partitioned at `Eol` and empty lines are dropped. -/
def splitLinesGo : List TokenInfo → List TokenInfo → List (List TokenInfo)
  | cur, [] => if cur.isEmpty then [] else [cur.reverse]
  | cur, ti :: rest =>
    match ti.token with
    | .Eol =>
      if cur.isEmpty then splitLinesGo [] rest
      else cur.reverse :: splitLinesGo [] rest
    | _ => splitLinesGo (ti :: cur) rest

/-- Line splitting from `parse` in `parser.rs`. -/
def splitLines (tis : List TokenInfo) : List (List TokenInfo) :=
  splitLinesGo [] tis

/-- Label table: mapping from label name to line index, modelled as an
association list (`HashMap<String, usize>` in the source). -/
def LabelMap := List (String × Nat)

/-- Label lookup (`labels.get`). -/
def labelGet (s : String) : List (String × Nat) → Option Nat
  | [] => none
  | (s2, n) :: t => if s2 = s then some n else labelGet s t

/-- Removal of a key from an association list (helper for replace-on-insert). -/
def labelRemove (s : String) : List (String × Nat) → List (String × Nat)
  | [] => []
  | (s2, n) :: t => if s2 = s then labelRemove s t else (s2, n) :: labelRemove s t

/-- Label insertion (`labels.insert`); replaces any previous binding. -/
def labelInsert (s : String) (n : Nat) (l : List (String × Nat)) :
    List (String × Nat) :=
  (s, n) :: labelRemove s l

/-- Span end of a line: `line[line.len() - 1].end` in the source; the default
is never used because every processed line is non-empty. -/
def lineStop (line : List TokenInfo) : Nat :=
  (line.getLastD ⟨.Eol, 0, 0⟩).stop

/-- Per-line loop of `parse` in `parser.rs`: classifies each line as a label
definition (`Smi Idn`) or a function-call statement, threading the label table
and emitted instructions.  `allLines` is the full line list (used by the
`LabelAlreadySet` error to fetch the earlier defining line), `n` the current
line index. -/
def parseLines (fuel : Nat) (allLines : List (List TokenInfo)) :
    Nat → List (List TokenInfo) → List (String × Nat) → List InstrInfo →
    PResult (List (String × Nat) × List InstrInfo)
  | _, [], labels, instrs => .ok (labels, instrs)
  | n, line :: rest, labels, instrs =>
    match line with
    | [] => .crash
    | ti0 :: lrest =>
      match ti0.token with
      | .Smi =>
        match lrest with
        | [⟨.Idn idn, _, _⟩] =>
          match labelGet idn labels with
          | some line_no =>
            match allLines.get? line_no with
            | some line_at => .err ⟨.LabelAlreadySet idn line_at, line, none⟩
            | none => .crash
          | none =>
            parseLines fuel allLines (n + 1) rest (labelInsert idn n labels)
              (instrs ++ [⟨.LabelPlaceHolder idn, ti0.start, lineStop line⟩])
        | ti1 :: _ =>
          let note : Option String :=
            match ti1.token with
            | .Str s =>
              if is_iden s then some ("Maybe you meant `;" ++ s ++ "`") else none
            | _ => none
          .err ⟨.UnexpectedToken ti1, line, note⟩
        | [] => .crash
      | .Idn _ | .Dol | .Que | .Eql | .Not | .Hsh =>
        match parse_func_call fuel line with
        | .ok (_, .FunCall fn) =>
          parseLines fuel allLines (n + 1) rest labels
            (instrs ++ [⟨.FunCall fn, ti0.start, lineStop line⟩])
        | .ok (_, .Value _) => .crash
        | .err e => .err e
        | .crash => .crash
        | .outOfFuel => .outOfFuel
      | _ => .err ⟨.UnexpectedToken ti0, line, none⟩

/-- Top-level parser from `parser.rs` (`parse`): splits the token stream into
lines and runs the per-line loop.  The fuel bounds the recursion depth of
nested function-call parsing only. -/
def parse (fuel : Nat) (tis : List TokenInfo) :
    PResult (List (String × Nat) × List InstrInfo) :=
  parseLines fuel (splitLines tis) 0 (splitLines tis) [] []

/-! ## Interpreter data model (`interpreter.rs`) -/

/-- Decimal digit characters as produced by Rust's integer formatting. -/
def digitChar (n : Nat) : Char := Char.ofNat (48 + n)

/-- ASCII decimal digit test, as accepted by Rust's `str::parse::<isize>`. -/
def isDigitChar (c : Char) : Bool := 48 ≤ c.toNat && c.toNat ≤ 57

/-- Numeric value of a digit character. -/
def digitVal (c : Char) : Nat := c.toNat - 48

/-- Value of a big-endian digit string. -/
def digitsVal : List Char → Nat
  | [] => 0
  | c :: t => digitVal c * 10 ^ t.length + digitsVal t

/-- Fuel-based digit production (structural recursion; the fuel is irrelevant
as long as it exceeds the argument, see `natDigitsAux_irrel`). -/
def natDigitsAux : Nat → Nat → List Char
  | 0, _ => []
  | f + 1, n =>
    if n < 10 then [digitChar n]
    else natDigitsAux f (n / 10) ++ [digitChar (n % 10)]

/-- Decimal digits of a natural number, most significant first; models the
digit production of Rust's `isize::to_string`. -/
def natDigits (n : Nat) : List Char := natDigitsAux (n + 1) n

/-- Decimal rendering of a signed integer; models Rust's `isize::to_string`
(and the `{}` `Display` format for `isize`). -/
def intToString (n : Int) : String :=
  if n < 0 then "-" ++ String.mk (natDigits (-n).toNat)
  else String.mk (natDigits n.toNat)

/-- Maximum value of a 64-bit `isize`. -/
def isizeMax : Nat := 9223372036854775807

/-- Models Rust's `str::parse::<isize>` on a 64-bit platform: an optional
leading `+` or `-` sign followed by one or more ASCII digits, rejecting the
empty digit run, any non-digit character, and values outside the `isize`
range. -/
def parseIsize (s : String) : Option Int :=
  match s.data with
  | [] => none
  | c :: rest =>
    let sign : Int := if c = '-' then -1 else 1
    let digits := if c = '-' ∨ c = '+' then rest else c :: rest
    if digits.isEmpty then none
    else if digits.all isDigitChar then
      let v : Int := sign * (digitsVal digits : Nat)
      if -((isizeMax : Int) + 1) ≤ v ∧ v ≤ (isizeMax : Int) then some v else none
    else none

/-- Escape of one character in Rust's `{:?}` (Debug) formatting of strings;
the common escapes are modelled (quote, backslash, newline, tab, carriage
return), which covers every string the claims touch. -/
def rustDebugChar (c : Char) : String :=
  if c = '"' then "\\\""
  else if c = '\\' then "\\\\"
  else if c = '\n' then "\\n"
  else if c = '\t' then "\\t"
  else if c = '\r' then "\\r"
  else String.mk [c]

/-- Rust `{:?}` (Debug) formatting of a string: surrounding quotes plus
escapes. -/
def rustDebug (s : String) : String :=
  "\"" ++ String.join (s.data.map rustDebugChar) ++ "\""

/-- Display of a `Value`, from `impl fmt::Display for Value` in `parser.rs`. -/
def valueDisplay : Value → String
  | .Str s => rustDebug s ++ " (an Str)"
  | .Int n => intToString n ++ " (an Int)"
  | .None => "None"

/-- Display of a `Fun` (its mnemonic), from `impl fmt::Display for Fun` in
`parser.rs`. -/
def funDisplay : Fun → String
  | .Set _ _ => "s:"
  | .Get _ => "g:"
  | .Write _ => "w:"
  | .Print _ => "p:"
  | .Add _ _ => "a:"
  | .Jump _ => "j:"
  | .Equal _ _ => "e:"
  | .Convert _ => "c:"
  | .Extract _ _ => "x:"
  | .If _ _ => "?:"
  | .Input => "i"
  | .KeyChar => "k"
  | .Text _ => "t:"
  | .Number _ => "n:"
  | .CatchError _ _ => "#:"
  | .ThrowError _ => "!:"
  | .Return _ => "r:"
  | .FunJump _ => "f:"
  | .EmptySlot => "~"
  | .Exit => "$"

/-- Runtime error, from `interpreter.rs` (`enum Error`). -/
inductive Error where
  | TypeError : Value → Value → Error
  | LabelError : String → Error
  | ValueError : Value → Error
  | NoSlotError : Error
  | Error : String → Error

/-- Numeric code of a runtime error, from `Error::error_code` in
`interpreter.rs` (the `Code::ErrCode` payload).  Declared at top level (rather
than as `Error.error_code`) because the constructor `Error.Error` shadows the
type name inside the `Error` namespace. -/
def errorCode : Error → Nat
  | .TypeError _ _ => 401
  | .LabelError _ => 402
  | .ValueError _ => 403
  | .NoSlotError => 404
  | .Error _ => 400

/-- Runtime error with the originating call and optional note, from
`interpreter.rs` (`struct ErrorInfo`); the source field `fun` is renamed `fn`
(Lean keyword). -/
structure ErrorInfo where
  error : Error
  fn : Fun
  note : Option String

/-- Runtime error wrapped with the span-carrying instruction, from
`interpreter.rs` (`struct InterpreterError`). -/
structure InterpreterError where
  error_info : ErrorInfo
  instr_info : InstrInfo

/-- Control-flow signal, from `interpreter.rs` (`enum Signal`). -/
inductive Signal where
  | error : ErrorInfo → Signal
  | interpreterError : InterpreterError → Signal
  | jump : Nat → Signal
  | ret : Value → Signal

/-- Interpreter state: the mutable slot table plus the embedder-supplied
I/O callbacks modelled as streams (`output` collects every string passed to
the `stdout` callback, which always succeeds; `input` is the list of texts the
`stdin` callback will return, failing when exhausted). -/
structure State where
  slots : List (Int × Value)
  output : List String
  input : List String

/-- Slot lookup (`slots.get`). -/
def slotGet (k : Int) : List (Int × Value) → Option Value
  | [] => none
  | (k2, v) :: t => if k2 = k then some v else slotGet k t

/-- Removal of a key from the slot table (helper for replace-on-insert). -/
def slotRemove (k : Int) : List (Int × Value) → List (Int × Value)
  | [] => []
  | (k2, v) :: t => if k2 = k then slotRemove k t else (k2, v) :: slotRemove k t

/-- Slot insertion (`slots.insert`); replaces any previous binding. -/
def slotInsert (k : Int) (v : Value) (l : List (Int × Value)) :
    List (Int × Value) :=
  (k, v) :: slotRemove k l

/-- The `for n in 0..isize::MAX` search of `Fun::EmptySlot`: the smallest
non-negative key absent from the slot table, `none` when every candidate below
`isize::MAX` is occupied (the `NoSlotError` case).  The search range is capped
at `slots.length + 1` because a free key always exists within it. -/
def emptySlot (l : List (Int × Value)) : Option Int :=
  match (List.range (min (l.length + 1) isizeMax)).find?
      (fun n => (slotGet (Int.ofNat n) l).isNone) with
  | some n => some (Int.ofNat n)
  | none => none

/-- Truthiness of a condition value, from the `condit` computation of
`Fun::If` in `interpret_fun_call`. -/
def truthy : Value → Bool
  | .Str s => s != ""
  | .Int n => n != 0
  | .None => false

/-- Outcome of an interpreter computation.  `ok`/`sig` mirror the Rust
`Result<Value, Signal>`; `exited` models `std::process::exit(0)` in
`Fun::Exit`; `panicked` models a Rust panic (`unwrap`); `timeout` marks fuel
exhaustion of the Lean embedding and never corresponds to a source
behaviour. -/
inductive EvalOut where
  | ok : Value → State → EvalOut
  | sig : Signal → State → EvalOut
  | exited : State → EvalOut
  | panicked : State → EvalOut
  | timeout : EvalOut

/-- The three mutually recursive activities of the interpreter: evaluating a
function call (`interpret_fun_call`), evaluating an argument expression (the
repeated `match expr { Value(v) => v, FunCall(f) => interpret_fun_call(f)? }`
idiom), and running the instruction loop from an index
(`interpret_instrs`). -/
inductive Job where
  | call : Fun → Job
  | arg : Expr → Job
  | run : Nat → Job

/-- Appends a line to the collected stdout stream. -/
def pushOut (σ : State) (t : String) : State :=
  { σ with output := σ.output ++ [t] }

/-- The interpreter core: a single fuel-indexed function covering
`interpret_fun_call` (`Job.call`), argument evaluation (`Job.arg`) and the
`interpret_instrs` loop (`Job.run`), each translated clause by clause from
`interpreter.rs`.  Evaluating a literal argument consumes no fuel; every
recursive activity consumes one unit. -/
def exec (prog : List InstrInfo) (labels : List (String × Nat)) :
    Nat → Job → State → EvalOut
  | _, .arg (.Value v), σ => .ok v σ
  | 0, _, _ => .timeout
  | f + 1, .arg (.FunCall g), σ => exec prog labels f (.call g) σ
  | f + 1, .run i, σ =>
    if _h : i < prog.length then
      match (prog[i]).instr with
      | .SetLabel _ => exec prog labels f (.run (i + 1)) σ
      | .LabelPlaceHolder _ => exec prog labels f (.run (i + 1)) σ
      | .FunCall fn =>
        match exec prog labels f (.call fn) σ with
        | .ok _ σ2 => exec prog labels f (.run (i + 1)) σ2
        | .sig (.error einfo) σ2 =>
          .sig (.interpreterError ⟨einfo, prog[i]⟩) σ2
        | .sig (.interpreterError ie) σ2 => .sig (.interpreterError ie) σ2
        | .sig (.ret v) σ2 => .ok v σ2
        | .sig (.jump t) σ2 => exec prog labels f (.run (t + 1)) σ2
        | .exited σ2 => .exited σ2
        | .panicked σ2 => .panicked σ2
        | .timeout => .timeout
    else .ok .None σ
  | f + 1, .call fn, σ =>
    match fn with
    | .Set e1 e2 =>
      match exec prog labels f (.arg e1) σ with
      | .ok v1 σ1 =>
        match v1 with
        | .Int k =>
          match exec prog labels f (.arg e2) σ1 with
          | .ok v2 σ2 => .ok .None { σ2 with slots := slotInsert k v2 σ2.slots }
          | r => r
        | _ => .sig (.error ⟨.TypeError (.Int 0) v1, fn, none⟩) σ1
      | r => r
    | .Get e =>
      match exec prog labels f (.arg e) σ with
      | .ok v σ1 =>
        match v with
        | .Int k =>
          match slotGet k σ1.slots with
          | some w => .ok w σ1
          | none => .ok .None σ1
        | _ => .sig (.error ⟨.TypeError (.Int 0) v, fn, none⟩) σ1
      | r => r
    | .Jump e =>
      match exec prog labels f (.arg e) σ with
      | .ok v σ1 =>
        match v with
        | .Str s =>
          match labelGet s labels with
          | some t => .sig (.jump t) σ1
          | none => .sig (.error ⟨.LabelError s, fn, none⟩) σ1
        | _ => .sig (.error ⟨.TypeError (.Str "") v, fn, none⟩) σ1
      | r => r
    | .FunJump e =>
      match exec prog labels f (.arg e) σ with
      | .ok v σ1 =>
        match v with
        | .Str s =>
          match labelGet s labels with
          | some t =>
            match exec prog labels f (.run t) σ1 with
            | .ok v2 σ2 => .ok v2 σ2
            | r => r
          | none => .sig (.error ⟨.LabelError s, fn, none⟩) σ1
        | _ => .sig (.error ⟨.TypeError (.Str "") v, fn, none⟩) σ1
      | r => r
    | .Add e1 e2 =>
      match exec prog labels f (.arg e1) σ with
      | .ok v1 σ1 =>
        match exec prog labels f (.arg e2) σ1 with
        | .ok v2 σ2 =>
          match v1, v2 with
          | .Int n1, .Int n2 => .ok (.Int (n1 + n2)) σ2
          | .Str s1, .Str s2 => .ok (.Str (s1 ++ s2)) σ2
          | _, _ =>
            .sig (.error ⟨.Error ("You are trying to add " ++ valueDisplay v1
              ++ " and " ++ valueDisplay v2 ++ " which is invalid"), fn, none⟩) σ2
        | r => r
      | r => r
    | .CatchError e1 e2 =>
      match exec prog labels f (.arg e1) σ with
      | .ok v1 σ1 =>
        match v1 with
        | .Str s =>
          match labelGet s labels with
          | some t =>
            match e2 with
            | .Value v => .ok v σ1
            | .FunCall g =>
              match exec prog labels f (.call g) σ1 with
              | .ok v2 σ2 => .ok v2 σ2
              | .sig (.error einfo) σ2 =>
                .sig (.jump t)
                  { σ2 with
                      slots :=
                        slotInsert (-1)
                          (.Int (errorCode einfo.error : Nat)) σ2.slots }
              | .sig (.interpreterError ie) σ2 =>
                .sig (.jump t)
                  { σ2 with
                      slots :=
                        slotInsert (-1)
                          (.Int (errorCode ie.error_info.error : Nat)) σ2.slots }
              | r => r
          | none => .sig (.error ⟨.LabelError s, fn, none⟩) σ1
        | _ => .sig (.error ⟨.TypeError (.Str "") v1, fn, none⟩) σ1
      | r => r
    | .ThrowError e =>
      match exec prog labels f (.arg e) σ with
      | .ok v σ1 =>
        let s : String :=
          match v with
          | .Str s => s
          | .Int n => intToString n
          | .None => ""
        .sig (.error ⟨.Error s, fn,
          some ("This is an error raise by function `" ++ funDisplay fn ++ "`")⟩) σ1
      | r => r
    | .Print e =>
      match exec prog labels f (.arg e) σ with
      | .ok v σ1 =>
        match v with
        | .Str s => .ok .None (pushOut σ1 (s ++ "\n"))
        | .Int n => .ok .None (pushOut σ1 (intToString n ++ "\n"))
        | .None => .ok .None (pushOut σ1 "None\n")
      | r => r
    | .Write e =>
      match exec prog labels f (.arg e) σ with
      | .ok v σ1 =>
        match v with
        | .Str s => .ok .None (pushOut σ1 s)
        | .Int n => .ok .None (pushOut σ1 (intToString n))
        | .None => .ok .None (pushOut σ1 "None")
      | r => r
    | .If e1 e2 =>
      match exec prog labels f (.arg e1) σ with
      | .ok v1 σ1 =>
        if truthy v1 then
          match exec prog labels f (.arg e2) σ1 with
          | .ok v σ2 => .ok v σ2
          | r => r
        else .ok .None σ1
      | r => r
    | .Equal e1 e2 =>
      match exec prog labels f (.arg e1) σ with
      | .ok v1 σ1 =>
        match exec prog labels f (.arg e2) σ1 with
        | .ok v2 σ2 =>
          match v1, v2 with
          | .Int n1, .Int n2 =>
            if n1 = n2 then .ok (.Int 1) σ2 else .ok (.Int 0) σ2
          | .Str s1, .Str s2 =>
            if s1 = s2 then .ok (.Int 1) σ2 else .ok (.Int 0) σ2
          | _, _ =>
            .sig (.error ⟨.Error ("You are trying to compare " ++ valueDisplay v1
              ++ " and " ++ valueDisplay v2 ++ " which is invalid"), fn, none⟩) σ2
        | r => r
      | r => r
    | .Extract e1 e2 =>
      match exec prog labels f (.arg e1) σ with
      | .ok v1 σ1 =>
        match exec prog labels f (.arg e2) σ1 with
        | .ok v2 σ2 =>
          match v1, v2 with
          | .Str s, .Int n =>
            match (if 0 ≤ n then s.data.get? n.toNat else none) with
            | some c => .ok (.Str (String.mk [c])) σ2
            | none => .ok (.Str "") σ2
          | _, _ =>
            .sig (.error ⟨.Error ("You are trying to extract from "
              ++ valueDisplay v1 ++ " using index value " ++ valueDisplay v2
              ++ " which is invalid"), fn, none⟩) σ2
        | r => r
      | r => r
    | .Text e =>
      match exec prog labels f (.arg e) σ with
      | .ok v σ1 =>
        match v with
        | .Int n => .ok (.Str (intToString n)) σ1
        | _ => .sig (.error ⟨.TypeError (.Int 0) v, fn, none⟩) σ1
      | r => r
    | .Number e =>
      match exec prog labels f (.arg e) σ with
      | .ok v σ1 =>
        match v with
        | .Str s =>
          match parseIsize s with
          | some n => .ok (.Int n) σ1
          | none =>
            .sig (.error ⟨.ValueError v, fn,
              some ("Cannot convert " ++ valueDisplay v ++ " to an Int")⟩) σ1
        | _ => .sig (.error ⟨.TypeError (.Int 0) v, fn, none⟩) σ1
      | r => r
    | .Convert e =>
      match exec prog labels f (.arg e) σ with
      | .ok v σ1 =>
        match v with
        | .Str s =>
          if s.utf8ByteSize ≠ 1 then
            .sig (.error ⟨.ValueError v, fn,
              some ("The Str should have exactly 1 char got "
                ++ intToString (s.utf8ByteSize : Nat))⟩) σ1
          else
            match s.data with
            | c :: _ => .ok (.Int (c.toNat : Nat)) σ1
            | [] => .panicked σ1
        | .Int n =>
          let u : Nat := (n % 4294967296).toNat
          if Nat.isValidChar u then .ok (.Str (String.mk [Char.ofNat u])) σ1
          else
            .sig (.error ⟨.ValueError v, fn,
              some ("Cannot convert Int " ++ intToString n ++ " to a char")⟩) σ1
        | .None =>
          .sig (.error ⟨.ValueError v, fn, some "Cannot convert None value"⟩) σ1
      | r => r
    | .Return e =>
      match exec prog labels f (.arg e) σ with
      | .ok v σ1 => .sig (.ret v) σ1
      | r => r
    | .Input =>
      match σ.input with
      | [] => .sig (.error ⟨.Error "Failed to receive an input", fn, none⟩) σ
      | s :: rest => .ok (.Str s.trim) { σ with input := rest }
    | .KeyChar => .ok .None σ
    | .EmptySlot =>
      match emptySlot σ.slots with
      | some n => .ok (.Int n) σ
      | none =>
        .sig (.error ⟨.NoSlotError, fn,
          some "At this point, you better use a known number"⟩) σ
    | .Exit => .exited σ

/-- Evaluation of one function call, `interpret_fun_call` in
`interpreter.rs`. -/
def interpret_fun_call (prog : List InstrInfo) (labels : List (String × Nat))
    (fuel : Nat) (fn : Fun) (σ : State) : EvalOut :=
  exec prog labels fuel (.call fn) σ

/-- Evaluation of an argument expression (literal or nested call). -/
def eval_arg (prog : List InstrInfo) (labels : List (String × Nat))
    (fuel : Nat) (e : Expr) (σ : State) : EvalOut :=
  exec prog labels fuel (.arg e) σ

/-- The instruction loop from index `i`, `interpret_instrs` in
`interpreter.rs`. -/
def interpret_instrs (prog : List InstrInfo) (labels : List (String × Nat))
    (fuel : Nat) (i : Nat) (σ : State) : EvalOut :=
  exec prog labels fuel (.run i) σ

/-- Empty interpreter state. -/
def State.empty : State := ⟨[], [], []⟩

/-! ## Fixtures used by the sanity checks and claim witnesses -/

/-- Token line for the source text `g:5`. -/
def lineG5 : List TokenInfo :=
  [⟨.Idn "g", 0, 1⟩, ⟨.Col, 1, 2⟩, ⟨.Int 5, 2, 3⟩]

/-- Token line for the source text `$`. -/
def lineDol : List TokenInfo := [⟨.Dol, 0, 1⟩]

/-- Token line for the source text `s:`. -/
def lineSColon : List TokenInfo := [⟨.Idn "s", 0, 1⟩, ⟨.Col, 1, 2⟩]

/-- Token line for the source text `p:.` (a bare dot in argument position at
end of line). -/
def linePDot : List TokenInfo :=
  [⟨.Idn "p", 0, 1⟩, ⟨.Col, 1, 2⟩, ⟨.Dot, 2, 3⟩]

/-- Whether a value is an `Int`. -/
def isInt : Value → Bool
  | .Int _ => true
  | _ => false

/-- Two-instruction program used to exercise the shared slot table across a
`FunJump`-initiated nested interpret loop: a label line followed by
`r:g:k`. -/
def progSetGet (k : Int) : List InstrInfo :=
  [⟨.LabelPlaceHolder "L", 0, 0⟩,
   ⟨.FunCall (.Return (.FunCall (.Get (.Value (.Int k))))), 0, 0⟩]

/-- Label table for `progSetGet`. -/
def labelsSetGet : List (String × Nat) := [("L", 0)]

/-- Program used as the C2 witness: `j:"L"` followed by the label line `; L`. -/
def progJump : List InstrInfo :=
  [⟨.FunCall (.Jump (.Value (.Str "L"))), 0, 0⟩, ⟨.LabelPlaceHolder "L", 0, 0⟩]

/-- Label table for `progJump`. -/
def labelsJump : List (String × Nat) := [("L", 1)]

/-- Error raised by `Number` on the non-numeric string `"x"` (numeric code
403). -/
def einfoNum : ErrorInfo :=
  ⟨.ValueError (.Str "x"), .Number (.Value (.Str "x")),
    some ("Cannot convert " ++ valueDisplay (.Str "x") ++ " to an Int")⟩

/-- A wrapped interpreter error carrying `einfoNum`. -/
def ieNum : InterpreterError := ⟨einfoNum, ⟨.SetLabel "", 0, 0⟩⟩

/-- Tokens that may start a function-call statement line (the
`[Idn(_) | Dol | Que | Eql | Not | Hsh, ..]` pattern of `parse`). -/
def isCallStarter : Token → Bool
  | .Idn _ | .Dol | .Que | .Eql | .Not | .Hsh => true
  | _ => false

/-- Token line for the source text `p:1 2 3`. -/
def lineP123 : List TokenInfo :=
  [⟨.Idn "p", 0, 1⟩, ⟨.Col, 1, 2⟩, ⟨.Int 1, 2, 3⟩, ⟨.Int 2, 4, 5⟩,
   ⟨.Int 3, 6, 7⟩]

/-- Canonical decimal strings in the sense of the claim: an optional leading
`-`, then a non-empty digit run with no leading zero (`"0"` itself is
canonical; `"-0"` and `"007"` are not). -/
def isCanonicalDecimal (s : String) : Bool :=
  match s.data with
  | [] => false
  | c :: rest =>
    if c = '-' then
      !rest.isEmpty && rest.all isDigitChar && (rest.headD default != '0')
    else
      (c :: rest).all isDigitChar &&
        ((c :: rest).headD default != '0' || c :: rest == ['0'])

/-- Signed value denoted by a canonical decimal string. -/
def decStrVal (s : String) : Int :=
  match s.data with
  | [] => 0
  | c :: rest =>
    if c = '-' then -((digitsVal rest : Nat) : Int)
    else ((digitsVal (c :: rest) : Nat) : Int)

section SanityChecks

example :
    parse_func_call 4 lineG5 =
      .ok (2, .FunCall (.Get (.Value (.Int 5)))) := rfl

example : parse_func_call 4 lineDol = .ok (0, .FunCall .Exit) := rfl

example :
    parse_func_call 4 lineSColon =
      .err ⟨.NotEnoughArgument ⟨.Idn "s", 0, 1⟩ 0 2, lineSColon, none⟩ := rfl

example : parse_func_call 4 linePDot = .crash := rfl

example :
    interpret_fun_call [] [] 3
      (.Set (.Value (.Int 0)) (.Value (.Str "hi"))) State.empty =
      .ok .None ⟨[(0, .Str "hi")], [], []⟩ := rfl

example :
    interpret_fun_call [] [] 3
      (.Get (.Value (.Int 0))) ⟨[(0, .Str "hi")], [], []⟩ =
      .ok (.Str "hi") ⟨[(0, .Str "hi")], [], []⟩ := rfl

example :
    interpret_fun_call [] [] 3 (.Get (.Value (.Int 7))) State.empty =
      .ok .None State.empty := rfl

-- CatchError over a failing Number: slot -1 receives 403 and a Jump to the
-- label's line index is emitted.
example :
    interpret_fun_call [] [("h", 5)] 4
      (.CatchError (.Value (.Str "h"))
        (.FunCall (.Number (.Value (.Str "abc"))))) State.empty =
      .sig (.jump 5) ⟨[(-1, .Int 403)], [], []⟩ := rfl

-- Convert on a single multibyte character errors (byte length 2).
example :
    interpret_fun_call [] [] 2 (.Convert (.Value (.Str "¡"))) State.empty =
      .sig (.error ⟨.ValueError (.Str "¡"), .Convert (.Value (.Str "¡")),
        some "The Str should have exactly 1 char got 2"⟩) State.empty := rfl

example :
    interpret_fun_call [] [] 2 (.Convert (.Value (.Str "A"))) State.empty =
      .ok (.Int 65) State.empty := rfl

-- Text(Number("123")) round trip.
example :
    interpret_fun_call [] [] 4
      (.Text (.FunCall (.Number (.Value (.Str "123"))))) State.empty =
      .ok (.Str "123") State.empty := rfl

example :
    interpret_fun_call [] [] 4
      (.Text (.FunCall (.Number (.Value (.Str "-45"))))) State.empty =
      .ok (.Str "-45") State.empty := rfl

end SanityChecks

/-! ## Helper lemmas -/

theorem exec_arg_value (prog : List InstrInfo) (labels : List (String × Nat))
    (f : Nat) (v : Value) (σ : State) :
    exec prog labels f (.arg (.Value v)) σ = .ok v σ := by
  cases f <;> rfl

theorem exec_arg_funCall (prog : List InstrInfo) (labels : List (String × Nat))
    (f : Nat) (g : Fun) (σ : State) :
    exec prog labels (f + 1) (.arg (.FunCall g)) σ =
      exec prog labels f (.call g) σ := rfl

theorem exec_call_If (prog : List InstrInfo) (labels : List (String × Nat))
    (f : Nat) (e1 e2 : Expr) (σ : State) :
    exec prog labels (f + 1) (.call (.If e1 e2)) σ =
      match exec prog labels f (.arg e1) σ with
      | .ok v1 σ1 =>
        if truthy v1 then
          match exec prog labels f (.arg e2) σ1 with
          | .ok v σ2 => .ok v σ2
          | r => r
        else .ok .None σ1
      | r => r := rfl

theorem evalPass_eq (r : EvalOut) :
    (match r with
      | .ok v σ2 => EvalOut.ok v σ2
      | r => r) = r := by
  cases r <;> rfl

theorem slotGet_remove_ne (k k' : Int) (l : List (Int × Value)) (hk : k' ≠ k) :
    slotGet k (slotRemove k' l) = slotGet k l := by
  induction l with
  | nil => rfl
  | cons hd tl ih =>
    obtain ⟨a, b⟩ := hd
    by_cases ha : a = k'
    · subst ha
      simp [slotRemove, slotGet, ih, hk]
    · simp [slotRemove, slotGet, ha, ih]

theorem slotGet_insert_self (k : Int) (v : Value) (l : List (Int × Value)) :
    slotGet k (slotInsert k v l) = some v := by
  simp [slotInsert, slotGet]

theorem slotGet_insert_other (k k' : Int) (v : Value) (l : List (Int × Value))
    (hk : k' ≠ k) :
    slotGet k (slotInsert k' v l) = slotGet k l := by
  simp [slotInsert, slotGet, hk, slotGet_remove_ne k k' l hk]

theorem exec_call_Set (prog : List InstrInfo) (labels : List (String × Nat))
    (f : Nat) (e1 e2 : Expr) (σ : State) :
    exec prog labels (f + 1) (.call (.Set e1 e2)) σ =
      match exec prog labels f (.arg e1) σ with
      | .ok v1 σ1 =>
        match v1 with
        | .Int k =>
          match exec prog labels f (.arg e2) σ1 with
          | .ok v2 σ2 => .ok .None { σ2 with slots := slotInsert k v2 σ2.slots }
          | r => r
        | _ => .sig (.error ⟨.TypeError (.Int 0) v1, .Set e1 e2, none⟩) σ1
      | r => r := rfl

theorem exec_call_Get (prog : List InstrInfo) (labels : List (String × Nat))
    (f : Nat) (e : Expr) (σ : State) :
    exec prog labels (f + 1) (.call (.Get e)) σ =
      match exec prog labels f (.arg e) σ with
      | .ok v σ1 =>
        match v with
        | .Int k =>
          match slotGet k σ1.slots with
          | some w => .ok w σ1
          | none => .ok .None σ1
        | _ => .sig (.error ⟨.TypeError (.Int 0) v, .Get e, none⟩) σ1
      | r => r := rfl

/-- C6: `If(cond, value)` — the condition is truthy iff it is a non-zero `Int`
or a non-empty `Str` (`None` is falsy); when truthy, `If` yields exactly the
evaluation of `value`; when falsy, it yields `None` in the state left by the
condition alone, so the `value` expression contributes no side effects at
all. -/
theorem c6_if_short_circuit (prog : List InstrInfo) (labels : List (String × Nat))
    (f : Nat) (e1 e2 : Expr) (σ σ1 : State) (v1 : Value)
    (h : eval_arg prog labels f e1 σ = .ok v1 σ1) :
    interpret_fun_call prog labels (f + 1) (.If e1 e2) σ =
      (if truthy v1 then eval_arg prog labels f e2 σ1 else .ok .None σ1) ∧
    truthy v1 =
      (match v1 with
        | .Int n => n != 0
        | .Str s => s != ""
        | .None => false) := by
  constructor
  · simp only [interpret_fun_call, eval_arg] at h ⊢
    rw [exec_call_If, h]
    cases htr : truthy v1 <;> simp [htr, evalPass_eq]
  · cases v1 <;> rfl

/-- Witness for C6 at a concrete falsy condition guarding a throwing
expression: the error is not raised. -/
theorem c6_if_short_circuit_witness :
    interpret_fun_call [] [] 2
      (.If (.Value (.Int 0)) (.FunCall (.ThrowError (.Value (.Str "boom")))))
      State.empty =
      (if truthy (.Int 0) then
        eval_arg [] [] 1 (.FunCall (.ThrowError (.Value (.Str "boom"))))
          State.empty
      else .ok .None State.empty) ∧
    truthy (.Int 0) =
      (match Value.Int 0 with
        | .Int n => n != 0
        | .Str s => s != ""
        | .None => false) :=
  c6_if_short_circuit [] [] 1 (.Value (.Int 0))
    (.FunCall (.ThrowError (.Value (.Str "boom")))) State.empty State.empty
    (.Int 0) rfl

/-- C8: `Get` is total on slot keys — reading any key yields the stored value
if present and `None` if absent (never an error); when the slot argument
evaluates to a non-`Int` value, `Get` fails with a `TypeError`. -/
theorem c8_get_total (prog : List InstrInfo) (labels : List (String × Nat))
    (f : Nat) (e : Expr) (σ σ1 : State) (v : Value) (k : Int)
    (h : eval_arg prog labels f e σ = .ok v σ1) :
    (v = .Int k →
      interpret_fun_call prog labels (f + 1) (.Get e) σ =
        .ok ((slotGet k σ1.slots).getD .None) σ1) ∧
    (isInt v = false →
      interpret_fun_call prog labels (f + 1) (.Get e) σ =
        .sig (.error ⟨.TypeError (.Int 0) v, .Get e, none⟩) σ1) := by
  constructor
  · intro hv
    subst hv
    simp only [interpret_fun_call, eval_arg] at h ⊢
    rw [exec_call_Get, h]
    cases hs : slotGet k σ1.slots <;> simp [hs]
  · intro hv
    simp only [interpret_fun_call, eval_arg] at h ⊢
    rw [exec_call_Get, h]
    cases v <;> simp_all [isInt]

/-- Witness for C8: reading the never-set slot 7 of the empty slot table
yields `None`. -/
theorem c8_get_total_witness :
    (Value.Int 7 = .Int 7 →
      interpret_fun_call [] [] 1 (.Get (.Value (.Int 7))) State.empty =
        .ok ((slotGet 7 State.empty.slots).getD .None) State.empty) ∧
    (isInt (.Int 7) = false →
      interpret_fun_call [] [] 1 (.Get (.Value (.Int 7))) State.empty =
        .sig (.error ⟨.TypeError (.Int 0) (.Int 7), .Get (.Value (.Int 7)),
          none⟩) State.empty) :=
  c8_get_total [] [] 0 (.Value (.Int 7)) State.empty State.empty (.Int 7) 7 rfl

theorem exec_run_eq (prog : List InstrInfo) (labels : List (String × Nat))
    (f : Nat) (i : Nat) (σ : State) :
    exec prog labels (f + 1) (.run i) σ =
      (if _h : i < prog.length then
        match (prog[i]).instr with
        | .SetLabel _ => exec prog labels f (.run (i + 1)) σ
        | .LabelPlaceHolder _ => exec prog labels f (.run (i + 1)) σ
        | .FunCall fn =>
          match exec prog labels f (.call fn) σ with
          | .ok _ σ2 => exec prog labels f (.run (i + 1)) σ2
          | .sig (.error einfo) σ2 =>
            .sig (.interpreterError ⟨einfo, prog[i]⟩) σ2
          | .sig (.interpreterError ie) σ2 => .sig (.interpreterError ie) σ2
          | .sig (.ret v) σ2 => .ok v σ2
          | .sig (.jump t) σ2 => exec prog labels f (.run (t + 1)) σ2
          | .exited σ2 => .exited σ2
          | .panicked σ2 => .panicked σ2
          | .timeout => .timeout
      else .ok .None σ) := rfl

theorem exec_run_funCall (prog : List InstrInfo) (labels : List (String × Nat))
    (f : Nat) (i : Nat) (σ : State) (fn : Fun) (hi : i < prog.length)
    (hfn : (prog[i]).instr = .FunCall fn) :
    exec prog labels (f + 1) (.run i) σ =
      match exec prog labels f (.call fn) σ with
      | .ok _ σ2 => exec prog labels f (.run (i + 1)) σ2
      | .sig (.error einfo) σ2 => .sig (.interpreterError ⟨einfo, prog[i]⟩) σ2
      | .sig (.interpreterError ie) σ2 => .sig (.interpreterError ie) σ2
      | .sig (.ret v) σ2 => .ok v σ2
      | .sig (.jump t) σ2 => exec prog labels f (.run (t + 1)) σ2
      | .exited σ2 => .exited σ2
      | .panicked σ2 => .panicked σ2
      | .timeout => .timeout := by
  rw [exec_run_eq, dif_pos hi, hfn]

theorem exec_run_placeholder (prog : List InstrInfo)
    (labels : List (String × Nat)) (f : Nat) (i : Nat) (σ : State)
    (name : String) (hi : i < prog.length)
    (hfn : (prog[i]).instr = .LabelPlaceHolder name) :
    exec prog labels (f + 1) (.run i) σ = exec prog labels f (.run (i + 1)) σ := by
  rw [exec_run_eq, dif_pos hi, hfn]

theorem exec_call_Return (prog : List InstrInfo) (labels : List (String × Nat))
    (f : Nat) (e : Expr) (σ : State) :
    exec prog labels (f + 1) (.call (.Return e)) σ =
      match exec prog labels f (.arg e) σ with
      | .ok v σ1 => .sig (.ret v) σ1
      | r => r := rfl

theorem exec_call_FunJump (prog : List InstrInfo) (labels : List (String × Nat))
    (f : Nat) (e : Expr) (σ : State) :
    exec prog labels (f + 1) (.call (.FunJump e)) σ =
      match exec prog labels f (.arg e) σ with
      | .ok v σ1 =>
        match v with
        | .Str s =>
          match labelGet s labels with
          | some t =>
            match exec prog labels f (.run t) σ1 with
            | .ok v2 σ2 => .ok v2 σ2
            | r => r
          | none => .sig (.error ⟨.LabelError s, .FunJump e, none⟩) σ1
        | _ => .sig (.error ⟨.TypeError (.Str "") v, .FunJump e, none⟩) σ1
      | r => r := rfl

/-- C7: slot persistence — `Set(k, v)` succeeds yielding `None` and stores `v`
at `k`; a subsequent `Get(k)` returns `v`; a `Set` on a different key leaves it
unchanged while a `Set` on the same key replaces it; and a `FunJump`-initiated
nested interpret loop reads the very same slot table (`f:"L"` over a program
whose body is `r:g:k`). -/
theorem c7_slot_persistence (prog : List InstrInfo)
    (labels : List (String × Nat)) (f : Nat) (k k' : Int) (v w : Value)
    (σ : State) :
    interpret_fun_call prog labels (f + 1) (.Set (.Value (.Int k)) (.Value v)) σ =
      .ok .None { σ with slots := slotInsert k v σ.slots } ∧
    interpret_fun_call prog labels (f + 1) (.Get (.Value (.Int k)))
        { σ with slots := slotInsert k v σ.slots } =
      .ok v { σ with slots := slotInsert k v σ.slots } ∧
    (k' ≠ k →
      interpret_fun_call prog labels (f + 1) (.Get (.Value (.Int k)))
          { σ with slots := slotInsert k' w (slotInsert k v σ.slots) } =
        .ok v { σ with slots := slotInsert k' w (slotInsert k v σ.slots) }) ∧
    interpret_fun_call prog labels (f + 1) (.Get (.Value (.Int k)))
        { σ with slots := slotInsert k w (slotInsert k v σ.slots) } =
      .ok w { σ with slots := slotInsert k w (slotInsert k v σ.slots) } ∧
    interpret_fun_call (progSetGet k) labelsSetGet (f + 6)
        (.FunJump (.Value (.Str "L"))) { σ with slots := slotInsert k v σ.slots } =
      .ok v { σ with slots := slotInsert k v σ.slots } := by
  refine ⟨?_, ?_, ?_, ?_, ?_⟩
  · simp [interpret_fun_call, exec_call_Set, exec_arg_value]
  · simp [interpret_fun_call, exec_call_Get, exec_arg_value, slotGet_insert_self]
  · intro hk
    simp [interpret_fun_call, exec_call_Get, exec_arg_value,
      slotGet_insert_other k k' w _ hk, slotGet_insert_self]
  · simp [interpret_fun_call, exec_call_Get, exec_arg_value, slotGet_insert_self]
  · simp only [interpret_fun_call]
    rw [exec_call_FunJump]
    simp only [exec_arg_value, show labelGet "L" labelsSetGet = some 0 from rfl]
    have hlen0 : (0 : Nat) < (progSetGet k).length := by simp [progSetGet]
    have hlen1 : (1 : Nat) < (progSetGet k).length := by simp [progSetGet]
    have h0 : ((progSetGet k).get ⟨0, hlen0⟩).instr = .LabelPlaceHolder "L" := rfl
    have h1 : ((progSetGet k).get ⟨1, hlen1⟩).instr =
        .FunCall (.Return (.FunCall (.Get (.Value (.Int k))))) := rfl
    rw [exec_run_placeholder (progSetGet k) labelsSetGet (f + 4) 0 _ "L" hlen0 h0]
    rw [exec_run_funCall (progSetGet k) labelsSetGet (f + 3) 1 _ _ hlen1 h1]
    rw [exec_call_Return, exec_arg_funCall, exec_call_Get, exec_arg_value]
    simp [slotGet_insert_self]

/-- Witness for C7 at slot 0 holding `"a"`, with the other key 1 and the
replacing value 2. -/
theorem c7_slot_persistence_witness :
    interpret_fun_call [] [] 1 (.Set (.Value (.Int 0)) (.Value (.Str "a")))
        State.empty =
      .ok .None { State.empty with slots := slotInsert 0 (.Str "a") State.empty.slots } ∧
    interpret_fun_call [] [] 1 (.Get (.Value (.Int 0)))
        { State.empty with slots := slotInsert 0 (.Str "a") State.empty.slots } =
      .ok (.Str "a")
        { State.empty with slots := slotInsert 0 (.Str "a") State.empty.slots } ∧
    interpret_fun_call [] [] 1 (.Get (.Value (.Int 0)))
        { State.empty with
            slots := slotInsert 1 (.Int 2) (slotInsert 0 (.Str "a") State.empty.slots) } =
      .ok (.Str "a")
        { State.empty with
            slots := slotInsert 1 (.Int 2) (slotInsert 0 (.Str "a") State.empty.slots) } ∧
    interpret_fun_call [] [] 1 (.Get (.Value (.Int 0)))
        { State.empty with
            slots := slotInsert 0 (.Int 2) (slotInsert 0 (.Str "a") State.empty.slots) } =
      .ok (.Int 2)
        { State.empty with
            slots := slotInsert 0 (.Int 2) (slotInsert 0 (.Str "a") State.empty.slots) } ∧
    interpret_fun_call (progSetGet 0) labelsSetGet 6
        (.FunJump (.Value (.Str "L")))
        { State.empty with slots := slotInsert 0 (.Str "a") State.empty.slots } =
      .ok (.Str "a")
        { State.empty with slots := slotInsert 0 (.Str "a") State.empty.slots } :=
  have h := c7_slot_persistence [] [] 0 0 1 (.Str "a") (.Int 2) State.empty
  ⟨h.1, h.2.1, h.2.2.1 (by decide), h.2.2.2.1, h.2.2.2.2⟩

/-- C2: when the instruction at index `i` evaluates to a `Jump(t)` signal, the
control loop continues as the loop started at `t + 1` in the post-signal state:
the cursor is set to `t` and the normal increment skips the placeholder at the
target, so the next instruction executed is the one at `t + 1`. -/
theorem c2_jump_resumes_after_target (prog : List InstrInfo)
    (labels : List (String × Nat)) (f i t : Nat) (σ σ2 : State) (fn : Fun)
    (hi : i < prog.length) (hfn : (prog.get ⟨i, hi⟩).instr = .FunCall fn)
    (hsig : interpret_fun_call prog labels f fn σ = .sig (.jump t) σ2) :
    interpret_instrs prog labels (f + 1) i σ =
      interpret_instrs prog labels f (t + 1) σ2 := by
  simp only [interpret_instrs, interpret_fun_call] at hsig ⊢
  rw [exec_run_funCall prog labels f i σ fn hi hfn, hsig]

/-- Witness for C2: jumping to the label at line 1 resumes the loop at
index 2. -/
theorem c2_jump_resumes_after_target_witness :
    interpret_instrs progJump labelsJump 2 0 State.empty =
      interpret_instrs progJump labelsJump 1 2 State.empty :=
  c2_jump_resumes_after_target progJump labelsJump 1 0 1 State.empty State.empty
    (.Jump (.Value (.Str "L"))) (by simp [progJump]) rfl rfl

theorem exec_call_CatchError (prog : List InstrInfo)
    (labels : List (String × Nat)) (f : Nat) (e1 e2 : Expr) (σ : State) :
    exec prog labels (f + 1) (.call (.CatchError e1 e2)) σ =
      match exec prog labels f (.arg e1) σ with
      | .ok v1 σ1 =>
        match v1 with
        | .Str s =>
          match labelGet s labels with
          | some t =>
            match e2 with
            | .Value v => .ok v σ1
            | .FunCall g =>
              match exec prog labels f (.call g) σ1 with
              | .ok v2 σ2 => .ok v2 σ2
              | .sig (.error einfo) σ2 =>
                .sig (.jump t)
                  { σ2 with
                      slots :=
                        slotInsert (-1)
                          (.Int (errorCode einfo.error : Nat)) σ2.slots }
              | .sig (.interpreterError ie) σ2 =>
                .sig (.jump t)
                  { σ2 with
                      slots :=
                        slotInsert (-1)
                          (.Int (errorCode ie.error_info.error : Nat)) σ2.slots }
              | r => r
          | none => .sig (.error ⟨.LabelError s, .CatchError e1 e2, none⟩) σ1
        | _ => .sig (.error ⟨.TypeError (.Str "") v1, .CatchError e1 e2, none⟩) σ1
      | r => r := rfl

/-- C1: `CatchError(labelExpr, guardedExpr)` with a label expression resolving
to an existing label at line `L`: a guarded literal or a normally evaluating
guarded call passes its value through; a guarded call that raises an `Error`
or a surfacing `InterpreterError` stores the numeric code of the innermost
originating error (not of the wrapper) into slot `-1` and emits `Jump(L)`;
`Return` and `Jump` signals propagate unchanged. -/
theorem c1_catch_error_codes (prog : List InstrInfo)
    (labels : List (String × Nat)) (f L t : Nat) (e1 : Expr) (g : Fun)
    (σ σ1 σ2 : State) (s : String) (v : Value) (einfo : ErrorInfo)
    (ie : InterpreterError)
    (h1 : eval_arg prog labels f e1 σ = .ok (.Str s) σ1)
    (hL : labelGet s labels = some L) :
    (interpret_fun_call prog labels (f + 1) (.CatchError e1 (.Value v)) σ =
      .ok v σ1) ∧
    (interpret_fun_call prog labels f g σ1 = .ok v σ2 →
      interpret_fun_call prog labels (f + 1) (.CatchError e1 (.FunCall g)) σ =
        .ok v σ2) ∧
    (interpret_fun_call prog labels f g σ1 = .sig (.error einfo) σ2 →
      interpret_fun_call prog labels (f + 1) (.CatchError e1 (.FunCall g)) σ =
        .sig (.jump L)
          { σ2 with
              slots :=
                slotInsert (-1) (.Int (errorCode einfo.error : Nat)) σ2.slots }) ∧
    (interpret_fun_call prog labels f g σ1 = .sig (.interpreterError ie) σ2 →
      interpret_fun_call prog labels (f + 1) (.CatchError e1 (.FunCall g)) σ =
        .sig (.jump L)
          { σ2 with
              slots :=
                slotInsert (-1)
                  (.Int (errorCode ie.error_info.error : Nat)) σ2.slots }) ∧
    (interpret_fun_call prog labels f g σ1 = .sig (.ret v) σ2 →
      interpret_fun_call prog labels (f + 1) (.CatchError e1 (.FunCall g)) σ =
        .sig (.ret v) σ2) ∧
    (interpret_fun_call prog labels f g σ1 = .sig (.jump t) σ2 →
      interpret_fun_call prog labels (f + 1) (.CatchError e1 (.FunCall g)) σ =
        .sig (.jump t) σ2) := by
  simp only [interpret_fun_call, eval_arg] at h1 ⊢
  refine ⟨?_, ?_, ?_, ?_, ?_, ?_⟩
  · rw [exec_call_CatchError, h1]
    simp [hL]
  all_goals
    intro hg
    rw [exec_call_CatchError, h1]
    simp [hL, hg]

/-- Witness for C1 with the label `"h"` at line 5 and the guarded call
`n:"x"`, whose `ValueError` has code 403. -/
theorem c1_catch_error_codes_witness :
    (interpret_fun_call [] [("h", 5)] 2
        (.CatchError (.Value (.Str "h")) (.Value .None)) State.empty =
      .ok .None State.empty) ∧
    (interpret_fun_call [] [("h", 5)] 1 (.Number (.Value (.Str "x")))
        State.empty = .ok .None State.empty →
      interpret_fun_call [] [("h", 5)] 2
          (.CatchError (.Value (.Str "h")) (.FunCall (.Number (.Value (.Str "x")))))
          State.empty =
        .ok .None State.empty) ∧
    (interpret_fun_call [] [("h", 5)] 1 (.Number (.Value (.Str "x")))
        State.empty = .sig (.error einfoNum) State.empty →
      interpret_fun_call [] [("h", 5)] 2
          (.CatchError (.Value (.Str "h")) (.FunCall (.Number (.Value (.Str "x")))))
          State.empty =
        .sig (.jump 5)
          { State.empty with
              slots :=
                slotInsert (-1) (.Int (errorCode einfoNum.error : Nat))
                  State.empty.slots }) ∧
    (interpret_fun_call [] [("h", 5)] 1 (.Number (.Value (.Str "x")))
        State.empty = .sig (.interpreterError ieNum) State.empty →
      interpret_fun_call [] [("h", 5)] 2
          (.CatchError (.Value (.Str "h")) (.FunCall (.Number (.Value (.Str "x")))))
          State.empty =
        .sig (.jump 5)
          { State.empty with
              slots :=
                slotInsert (-1) (.Int (errorCode ieNum.error_info.error : Nat))
                  State.empty.slots }) ∧
    (interpret_fun_call [] [("h", 5)] 1 (.Number (.Value (.Str "x")))
        State.empty = .sig (.ret .None) State.empty →
      interpret_fun_call [] [("h", 5)] 2
          (.CatchError (.Value (.Str "h")) (.FunCall (.Number (.Value (.Str "x")))))
          State.empty =
        .sig (.ret .None) State.empty) ∧
    (interpret_fun_call [] [("h", 5)] 1 (.Number (.Value (.Str "x")))
        State.empty = .sig (.jump 0) State.empty →
      interpret_fun_call [] [("h", 5)] 2
          (.CatchError (.Value (.Str "h")) (.FunCall (.Number (.Value (.Str "x")))))
          State.empty =
        .sig (.jump 0) State.empty) :=
  c1_catch_error_codes [] [("h", 5)] 1 5 0 (.Value (.Str "h"))
    (.Number (.Value (.Str "x"))) State.empty State.empty State.empty "h" .None
    einfoNum ieNum rfl rfl

theorem exec_call_Convert (prog : List InstrInfo) (labels : List (String × Nat))
    (f : Nat) (e : Expr) (σ : State) :
    exec prog labels (f + 1) (.call (.Convert e)) σ =
      match exec prog labels f (.arg e) σ with
      | .ok v σ1 =>
        match v with
        | .Str s =>
          if s.utf8ByteSize ≠ 1 then
            .sig (.error ⟨.ValueError v, .Convert e,
              some ("The Str should have exactly 1 char got "
                ++ intToString (s.utf8ByteSize : Nat))⟩) σ1
          else
            match s.data with
            | c :: _ => .ok (.Int (c.toNat : Nat)) σ1
            | [] => .panicked σ1
        | .Int n =>
          let u : Nat := (n % 4294967296).toNat
          if Nat.isValidChar u then .ok (.Str (String.mk [Char.ofNat u])) σ1
          else
            .sig (.error ⟨.ValueError v, .Convert e,
              some ("Cannot convert Int " ++ intToString n ++ " to a char")⟩) σ1
        | .None =>
          .sig (.error ⟨.ValueError v, .Convert e,
            some "Cannot convert None value"⟩) σ1
      | r => r := rfl

/-- C5 counterexample: `"¡"` is a string of length exactly 1 (one Unicode
scalar value, U+00A1), yet `Convert` rejects it with a `ValueError` instead of
yielding `Int 161`, because the source tests the UTF-8 byte length. -/
theorem c5_convert_charlen_counterexample :
    String.length "¡" = 1 ∧
    interpret_fun_call [] [] 1 (.Convert (.Value (.Str "¡"))) State.empty =
      .sig (.error ⟨.ValueError (.Str "¡"), .Convert (.Value (.Str "¡")),
        some "The Str should have exactly 1 char got 2"⟩) State.empty :=
  ⟨rfl, rfl⟩

/-- C5 (amended): `Convert(Str(s))` yields `Int(codepoint of the first
character)` exactly when the UTF-8 byte length of `s` is 1 (a single ASCII
character); for any other byte length it yields a `ValueError` whose note
states that byte length. -/
theorem c5_convert_str_bytes (prog : List InstrInfo)
    (labels : List (String × Nat)) (f : Nat) (e : Expr) (σ σ1 : State)
    (s : String) (h : eval_arg prog labels f e σ = .ok (.Str s) σ1) :
    (s.utf8ByteSize = 1 →
      interpret_fun_call prog labels (f + 1) (.Convert e) σ =
        .ok (.Int ((s.data.headD default).toNat : Nat)) σ1) ∧
    (s.utf8ByteSize ≠ 1 →
      interpret_fun_call prog labels (f + 1) (.Convert e) σ =
        .sig (.error ⟨.ValueError (.Str s), .Convert e,
          some ("The Str should have exactly 1 char got "
            ++ intToString (s.utf8ByteSize : Nat))⟩) σ1) := by
  simp only [interpret_fun_call, eval_arg] at h ⊢
  constructor
  · intro hb
    rw [exec_call_Convert, h]
    obtain ⟨data⟩ := s
    cases data with
    | nil => simp [String.utf8ByteSize, String.utf8ByteSize.go] at hb
    | cons c rest => simp [hb]
  · intro hb
    rw [exec_call_Convert, h]
    simp [hb]

/-- Witness for C5 at the single ASCII character `"A"` (byte length 1,
code point 65). -/
theorem c5_convert_str_bytes_witness :
    (String.utf8ByteSize "A" = 1 →
      interpret_fun_call [] [] 1 (.Convert (.Value (.Str "A"))) State.empty =
        .ok (.Int (("A".data.headD default).toNat : Nat)) State.empty) ∧
    (String.utf8ByteSize "A" ≠ 1 →
      interpret_fun_call [] [] 1 (.Convert (.Value (.Str "A"))) State.empty =
        .sig (.error ⟨.ValueError (.Str "A"), .Convert (.Value (.Str "A")),
          some ("The Str should have exactly 1 char got "
            ++ intToString (String.utf8ByteSize "A" : Nat))⟩) State.empty) :=
  c5_convert_str_bytes [] [] 0 (.Value (.Str "A")) State.empty State.empty "A" rfl

theorem splitLinesGo_no_eol (l : List TokenInfo) (cur : List TokenInfo)
    (h : ∀ ti ∈ l, ti.token ≠ .Eol) :
    splitLinesGo cur l =
      if (cur.reverse ++ l).isEmpty then [] else [cur.reverse ++ l] := by
  induction l generalizing cur with
  | nil => simp [splitLinesGo, List.isEmpty_iff]
  | cons ti rest ih =>
    have hti : ti.token ≠ .Eol := h ti (by simp)
    have hrest : ∀ x ∈ rest, x.token ≠ .Eol := fun x hx => h x (by simp [hx])
    cases httok : ti.token <;> simp_all [splitLinesGo, ih, List.isEmpty_iff]

theorem splitLines_single (line : List TokenInfo) (hne : line ≠ [])
    (h : ∀ ti ∈ line, ti.token ≠ .Eol) : splitLines line = [line] := by
  simp [splitLines, splitLinesGo_no_eol line [] h, List.isEmpty_iff, hne]

/-- C10: on a statement line that parses as a function call, any tokens left
over after the call's required arguments are silently discarded: `parse`
succeeds and emits exactly the one `FunCall` instruction built from the
consumed tokens, with no error for the trailing tokens. -/
theorem c10_trailing_tokens_ignored (fuel n : Nat) (fn : Fun)
    (ti0 : TokenInfo) (rest : List TokenInfo)
    (hnoeol : ∀ ti ∈ ti0 :: rest, ti.token ≠ .Eol)
    (hhead : isCallStarter ti0.token = true)
    (hp : parse_func_call fuel (ti0 :: rest) = .ok (n, .FunCall fn)) :
    parse fuel (ti0 :: rest) =
      .ok ([], [⟨.FunCall fn, ti0.start, lineStop (ti0 :: rest)⟩]) := by
  have hs : splitLines (ti0 :: rest) = [ti0 :: rest] :=
    splitLines_single _ (by simp) hnoeol
  simp only [parse, hs]
  cases httok : ti0.token <;> simp_all [parseLines, isCallStarter]

/-- Witness for C10: `p:1 2 3` parses as `Print(1)`; the trailing `2` and `3`
are discarded. -/
theorem c10_trailing_tokens_ignored_witness :
    parse 6 lineP123 =
      .ok ([], [⟨.FunCall (.Print (.Value (.Int 1))), 0, 7⟩]) :=
  c10_trailing_tokens_ignored 6 2 (.Print (.Value (.Int 1)))
    ⟨.Idn "p", 0, 1⟩ [⟨.Col, 1, 2⟩, ⟨.Int 1, 2, 3⟩, ⟨.Int 2, 4, 5⟩,
      ⟨.Int 3, 6, 7⟩] (by decide) rfl rfl

/-- C4: running out of tokens in the middle of an argument list is reported as
the structured `NotEnoughArgument` error carrying the expected arity and the
number of arguments already parsed — `s:` gives
`NotEnoughArgument { expected := 2, got := 0 }` — but a line ending with a bare
`.` in argument position (`p:.`) makes the parser index past the end of the
line in `parse_dot_op` and panic instead of returning a structured error. -/
theorem c4_not_enough_argument_and_dot_crash :
    parse 5 lineSColon =
      .err ⟨.NotEnoughArgument ⟨.Idn "s", 0, 1⟩ 0 2, lineSColon, none⟩ ∧
    parse 5 linePDot = .crash :=
  ⟨rfl, rfl⟩

theorem get?_some_lt {α : Type} {l : List α} {n : Nat} {a : α}
    (h : l.get? n = some a) : n < l.length := by
  by_contra hn
  rw [List.get?_eq_none.mpr (by omega)] at h
  cases h

theorem take_eq_get? {α : Type} (l l2 : List α) (m p : Nat)
    (h : l2.take m = l.take m) (hp : p < m) : l2.get? p = l.get? p := by
  have h1 : (l2.take m).get? p = l2.get? p := List.get?_take hp
  have h2 : (l.take m).get? p = l.get? p := List.get?_take hp
  rw [← h1, ← h2, h]

theorem take_eq_mono {α : Type} (l l2 : List α) (m q : Nat)
    (h : l2.take m = l.take m) (hq : q ≤ m) : l2.take q = l.take q := by
  have := congrArg (List.take q) h
  simpa [List.take_take, Nat.min_eq_left hq] using this

theorem take_eq_drop_take {α : Type} (l l2 : List α) (m p q : Nat)
    (h : l2.take m = l.take m) (hpq : p + q ≤ m) :
    (l2.drop p).take q = (l.drop p).take q := by
  have hq : (l.take (p + q)).drop p = (l.drop p).take q := by
    rw [List.drop_take]
    congr 1
    omega
  have hq2 : (l2.take (p + q)).drop p = (l2.drop p).take q := by
    rw [List.drop_take]
    congr 1
    omega
  rw [← hq, ← hq2, take_eq_mono l l2 m (p + q) h hpq]

theorem take_eq_length_le {α : Type} (l l2 : List α) (m : Nat)
    (h : l2.take m = l.take m) (hm : m ≤ l.length) : m ≤ l2.length := by
  have := congrArg List.length h
  simp only [List.length_take] at this
  omega

theorem headCount_ok (line line2 : List TokenInfo) (ti : TokenInfo) (c : Nat)
    (h : headCount line ti = .ok c) : headCount line2 ti = .ok c := by
  unfold headCount at h ⊢
  cases ht : ti.token <;> simp_all
  case Idn s =>
    cases hfa : funArity s <;> simp_all

theorem take_two_shape {α : Type} (l : List α) (x y : α)
    (h : l.take 2 = [x, y]) : ∃ t, l = x :: y :: t := by
  cases l with
  | nil => simp at h
  | cons a l1 =>
    cases l1 with
    | nil => simp at h
    | cons b l2 =>
      simp only [List.take, List.cons.injEq] at h
      obtain ⟨rfl, rfl, -⟩ := h
      exact ⟨l2, rfl⟩

theorem parse_dot_op_ok (l : List TokenInfo) (di : Nat) (a : Expr)
    (h : parse_dot_op l = .ok (di, a)) :
    di = 1 ∧ 2 ≤ l.length ∧
      ∀ l2, l2.take 2 = l.take 2 → parse_dot_op l2 = .ok (di, a) := by
  unfold parse_dot_op at h
  split at h
  case _ n s1 e1 s2 e2 tail =>
    injection h with h1
    injection h1 with hdi ha
    subst hdi
    refine ⟨rfl, by simp, ?_⟩
    intro l2 h2
    simp only [List.take] at h2
    obtain ⟨t, rfl⟩ := take_two_shape l2 _ _ h2
    unfold parse_dot_op
    rw [← ha]
  case _ =>
    split at h
    · exact PResult.noConfusion h
    · exact PResult.noConfusion h

/-- Consumption invariant of the function-call parser: when `parse_func_call`
succeeds with first component `n`, it has examined only the first `n + 1`
tokens of its line — the line has at least `n + 1` tokens and any line agreeing
on those tokens parses identically.  The companion statement for `parse_args`
carries the loop invariant `i + c ≤ n + 1` relating the cursor to the final
result. -/
theorem consumed_invariant (fuel : Nat) :
    (∀ line n e, parse_func_call fuel line = .ok (n, e) →
      n + 1 ≤ line.length ∧
      ∀ line2, line2.take (n + 1) = line.take (n + 1) →
        parse_func_call fuel line2 = .ok (n, e)) ∧
    (∀ line count i c args n e,
      parse_args fuel line count i c args = .ok (n, e) →
      i + c ≤ line.length →
      n + 1 ≤ line.length ∧ i + c ≤ n + 1 ∧
      ∀ line2, line2.take (n + 1) = line.take (n + 1) →
        parse_args fuel line2 count i c args = .ok (n, e)) := by
  induction fuel with
  | zero =>
    constructor
    · intro line n e hok
      simp [parse_func_call] at hok
    · intro line count i c args n e hok
      simp [parse_args] at hok
  | succ f ih =>
    obtain ⟨ihF, ihA⟩ := ih
    constructor
    · intro line n e hok
      cases line with
      | nil => simp [parse_func_call] at hok
      | cons ti0 rest =>
        simp only [parse_func_call] at hok
        cases hcR : headCount (ti0 :: rest) ti0 with
        | err e2 => rw [hcR] at hok; exact PResult.noConfusion hok
        | crash => rw [hcR] at hok; exact PResult.noConfusion hok
        | outOfFuel => rw [hcR] at hok; exact PResult.noConfusion hok
        | ok count =>
          rw [hcR] at hok
          dsimp only at hok
          by_cases hc0 : count = 0
          · subst hc0
            rw [if_pos rfl] at hok
            obtain ⟨hlen, hic, hstab⟩ :=
              ihA (ti0 :: rest) 0 1 0 [] n e hok (by simp)
            refine ⟨hlen, ?_⟩
            intro line2 h2
            have h0 : line2.get? 0 = some ti0 := by
              rw [take_eq_get? (ti0 :: rest) line2 (n + 1) 0 h2 (by omega)]
              rfl
            cases line2 with
            | nil => simp at h0
            | cons u0 rest2 =>
              have hu : u0 = ti0 := by simpa using h0
              subst hu
              simp only [parse_func_call]
              rw [headCount_ok (u0 :: rest) (u0 :: rest2) u0 0 hcR]
              dsimp only
              exact hstab _ h2
          · rw [if_neg hc0] at hok
            cases hg1 : (ti0 :: rest).get? 1 with
            | none => rw [hg1] at hok; exact PResult.noConfusion hok
            | some ti1 =>
              rw [hg1] at hok
              dsimp only at hok
              cases ht1 : ti1.token <;> rw [ht1] at hok <;>
                try exact PResult.noConfusion hok
              -- only the Col arm survives
              have hlen2 : 1 < (ti0 :: rest).length := get?_some_lt hg1
              obtain ⟨hlen, hic, hstab⟩ :=
                ihA (ti0 :: rest) count 2 0 [] n e hok (by omega)
              refine ⟨hlen, ?_⟩
              intro line2 h2
              have h0 : line2.get? 0 = some ti0 := by
                rw [take_eq_get? (ti0 :: rest) line2 (n + 1) 0 h2 (by omega)]
                rfl
              have h1b : line2.get? 1 = some ti1 := by
                rw [take_eq_get? (ti0 :: rest) line2 (n + 1) 1 h2 (by omega)]
                exact hg1
              cases line2 with
              | nil => simp at h0
              | cons u0 rest2 =>
                have hu : u0 = ti0 := by simpa using h0
                subst hu
                simp only [parse_func_call]
                rw [headCount_ok (u0 :: rest) (u0 :: rest2) u0 count hcR]
                dsimp only
                rw [if_neg hc0, h1b]
                dsimp only
                rw [ht1]
                exact hstab _ h2
    · intro line count i c args n e hok hpre
      simp only [parse_args] at hok
      by_cases hcc : c < count
      · rw [if_pos hcc] at hok
        cases hgp : line.get? (c + i) with
        | none =>
          rw [hgp] at hok
          dsimp only at hok
          cases hg0 : line.get? 0 <;> rw [hg0] at hok <;>
            exact PResult.noConfusion hok
        | some ti =>
          rw [hgp] at hok
          dsimp only at hok
          have hplt : c + i < line.length := get?_some_lt hgp
          cases htt : ti.token with
          | Str sv =>
            rw [htt] at hok
            dsimp only at hok
            obtain ⟨hlen, hic2, hstab⟩ := ihA line count i (c + 1) _ n e hok (by omega)
            refine ⟨hlen, by omega, ?_⟩
            intro line2 h2
            have hg2 : line2.get? (c + i) = some ti := by
              rw [take_eq_get? line line2 (n + 1) (c + i) h2 (by omega)]
              exact hgp
            simp only [parse_args]
            rw [if_pos hcc, hg2]
            dsimp only
            rw [htt]
            exact hstab _ h2
          | Int m =>
            rw [htt] at hok
            dsimp only at hok
            obtain ⟨hlen, hic2, hstab⟩ := ihA line count i (c + 1) _ n e hok (by omega)
            refine ⟨hlen, by omega, ?_⟩
            intro line2 h2
            have hg2 : line2.get? (c + i) = some ti := by
              rw [take_eq_get? line line2 (n + 1) (c + i) h2 (by omega)]
              exact hgp
            simp only [parse_args]
            rw [if_pos hcc, hg2]
            dsimp only
            rw [htt]
            exact hstab _ h2
          | Idn sv =>
            rw [htt] at hok
            dsimp only at hok
            cases hsub : parse_func_call f (line.drop (c + i)) with
            | err e2 => rw [hsub] at hok; exact PResult.noConfusion hok
            | crash => rw [hsub] at hok; exact PResult.noConfusion hok
            | outOfFuel => rw [hsub] at hok; exact PResult.noConfusion hok
            | ok p =>
              obtain ⟨di, a⟩ := p
              rw [hsub] at hok
              dsimp only at hok
              obtain ⟨hslen, hsstab⟩ := ihF (line.drop (c + i)) di a hsub
              have hdroplen : (line.drop (c + i)).length = line.length - (c + i) :=
                List.length_drop _ _
              have hslen2 : di + 1 ≤ line.length - (c + i) := by omega
              obtain ⟨hlen, hic2, hstab⟩ :=
                ihA line count (i + di) (c + 1) (args ++ [a]) n e hok (by omega)
              refine ⟨hlen, by omega, ?_⟩
              intro line2 h2
              have hg2 : line2.get? (c + i) = some ti := by
                rw [take_eq_get? line line2 (n + 1) (c + i) h2 (by omega)]
                exact hgp
              have hsub2 : parse_func_call f (line2.drop (c + i)) = .ok (di, a) :=
                hsstab _ (take_eq_drop_take line line2 (n + 1) (c + i) (di + 1) h2
                  (by omega))
              simp only [parse_args]
              rw [if_pos hcc, hg2]
              dsimp only
              rw [htt]
              dsimp only
              rw [hsub2]
              exact hstab _ h2
          | Til =>
            rw [htt] at hok
            dsimp only at hok
            obtain ⟨hlen, hic2, hstab⟩ := ihA line count i (c + 1) _ n e hok (by omega)
            refine ⟨hlen, by omega, ?_⟩
            intro line2 h2
            have hg2 : line2.get? (c + i) = some ti := by
              rw [take_eq_get? line line2 (n + 1) (c + i) h2 (by omega)]
              exact hgp
            simp only [parse_args]
            rw [if_pos hcc, hg2]
            dsimp only
            rw [htt]
            exact hstab _ h2
          | Col =>
            rw [htt] at hok
            dsimp only at hok
            cases hg0 : line.get? c <;> rw [hg0] at hok <;>
              exact PResult.noConfusion hok
          | Smi =>
            rw [htt] at hok
            dsimp only at hok
            cases hg0 : line.get? c <;> rw [hg0] at hok <;>
              exact PResult.noConfusion hok
          | Dot =>
            rw [htt] at hok
            dsimp only at hok
            cases hsub : parse_dot_op (line.drop (c + i)) with
            | err e2 => rw [hsub] at hok; exact PResult.noConfusion hok
            | crash => rw [hsub] at hok; exact PResult.noConfusion hok
            | outOfFuel => rw [hsub] at hok; exact PResult.noConfusion hok
            | ok p =>
              obtain ⟨di, a⟩ := p
              rw [hsub] at hok
              dsimp only at hok
              obtain ⟨hdi1, hslen, hsstab⟩ := parse_dot_op_ok _ di a hsub
              subst hdi1
              have hdroplen : (line.drop (c + i)).length = line.length - (c + i) :=
                List.length_drop _ _
              have hslen2 : 2 ≤ line.length - (c + i) := by omega
              obtain ⟨hlen, hic2, hstab⟩ :=
                ihA line count (i + 1) (c + 1) (args ++ [a]) n e hok (by omega)
              refine ⟨hlen, by omega, ?_⟩
              intro line2 h2
              have hg2 : line2.get? (c + i) = some ti := by
                rw [take_eq_get? line line2 (n + 1) (c + i) h2 (by omega)]
                exact hgp
              have hsub2 : parse_dot_op (line2.drop (c + i)) = .ok (1, a) :=
                hsstab _ (take_eq_drop_take line line2 (n + 1) (c + i) 2 h2
                  (by omega))
              simp only [parse_args]
              rw [if_pos hcc, hg2]
              dsimp only
              rw [htt]
              dsimp only
              rw [hsub2]
              exact hstab _ h2
          | Eol =>
            rw [htt] at hok
            dsimp only at hok
            cases hg0 : line.get? c <;> rw [hg0] at hok <;>
              exact PResult.noConfusion hok
          | Dol =>
            rw [htt] at hok
            dsimp only at hok
            obtain ⟨hlen, hic2, hstab⟩ := ihA line count i (c + 1) _ n e hok (by omega)
            refine ⟨hlen, by omega, ?_⟩
            intro line2 h2
            have hg2 : line2.get? (c + i) = some ti := by
              rw [take_eq_get? line line2 (n + 1) (c + i) h2 (by omega)]
              exact hgp
            simp only [parse_args]
            rw [if_pos hcc, hg2]
            dsimp only
            rw [htt]
            exact hstab _ h2
          | Que =>
            rw [htt] at hok
            dsimp only at hok
            cases hsub : parse_func_call f (line.drop (c + i)) with
            | err e2 => rw [hsub] at hok; exact PResult.noConfusion hok
            | crash => rw [hsub] at hok; exact PResult.noConfusion hok
            | outOfFuel => rw [hsub] at hok; exact PResult.noConfusion hok
            | ok p =>
              obtain ⟨di, a⟩ := p
              rw [hsub] at hok
              dsimp only at hok
              obtain ⟨hslen, hsstab⟩ := ihF (line.drop (c + i)) di a hsub
              have hdroplen : (line.drop (c + i)).length = line.length - (c + i) :=
                List.length_drop _ _
              have hslen2 : di + 1 ≤ line.length - (c + i) := by omega
              obtain ⟨hlen, hic2, hstab⟩ :=
                ihA line count (i + di) (c + 1) (args ++ [a]) n e hok (by omega)
              refine ⟨hlen, by omega, ?_⟩
              intro line2 h2
              have hg2 : line2.get? (c + i) = some ti := by
                rw [take_eq_get? line line2 (n + 1) (c + i) h2 (by omega)]
                exact hgp
              have hsub2 : parse_func_call f (line2.drop (c + i)) = .ok (di, a) :=
                hsstab _ (take_eq_drop_take line line2 (n + 1) (c + i) (di + 1) h2
                  (by omega))
              simp only [parse_args]
              rw [if_pos hcc, hg2]
              dsimp only
              rw [htt]
              dsimp only
              rw [hsub2]
              exact hstab _ h2
          | Eql =>
            rw [htt] at hok
            dsimp only at hok
            cases hsub : parse_func_call f (line.drop (c + i)) with
            | err e2 => rw [hsub] at hok; exact PResult.noConfusion hok
            | crash => rw [hsub] at hok; exact PResult.noConfusion hok
            | outOfFuel => rw [hsub] at hok; exact PResult.noConfusion hok
            | ok p =>
              obtain ⟨di, a⟩ := p
              rw [hsub] at hok
              dsimp only at hok
              obtain ⟨hslen, hsstab⟩ := ihF (line.drop (c + i)) di a hsub
              have hdroplen : (line.drop (c + i)).length = line.length - (c + i) :=
                List.length_drop _ _
              have hslen2 : di + 1 ≤ line.length - (c + i) := by omega
              obtain ⟨hlen, hic2, hstab⟩ :=
                ihA line count (i + di) (c + 1) (args ++ [a]) n e hok (by omega)
              refine ⟨hlen, by omega, ?_⟩
              intro line2 h2
              have hg2 : line2.get? (c + i) = some ti := by
                rw [take_eq_get? line line2 (n + 1) (c + i) h2 (by omega)]
                exact hgp
              have hsub2 : parse_func_call f (line2.drop (c + i)) = .ok (di, a) :=
                hsstab _ (take_eq_drop_take line line2 (n + 1) (c + i) (di + 1) h2
                  (by omega))
              simp only [parse_args]
              rw [if_pos hcc, hg2]
              dsimp only
              rw [htt]
              dsimp only
              rw [hsub2]
              exact hstab _ h2
          | Not =>
            rw [htt] at hok
            dsimp only at hok
            cases hsub : parse_func_call f (line.drop (c + i)) with
            | err e2 => rw [hsub] at hok; exact PResult.noConfusion hok
            | crash => rw [hsub] at hok; exact PResult.noConfusion hok
            | outOfFuel => rw [hsub] at hok; exact PResult.noConfusion hok
            | ok p =>
              obtain ⟨di, a⟩ := p
              rw [hsub] at hok
              dsimp only at hok
              obtain ⟨hslen, hsstab⟩ := ihF (line.drop (c + i)) di a hsub
              have hdroplen : (line.drop (c + i)).length = line.length - (c + i) :=
                List.length_drop _ _
              have hslen2 : di + 1 ≤ line.length - (c + i) := by omega
              obtain ⟨hlen, hic2, hstab⟩ :=
                ihA line count (i + di) (c + 1) (args ++ [a]) n e hok (by omega)
              refine ⟨hlen, by omega, ?_⟩
              intro line2 h2
              have hg2 : line2.get? (c + i) = some ti := by
                rw [take_eq_get? line line2 (n + 1) (c + i) h2 (by omega)]
                exact hgp
              have hsub2 : parse_func_call f (line2.drop (c + i)) = .ok (di, a) :=
                hsstab _ (take_eq_drop_take line line2 (n + 1) (c + i) (di + 1) h2
                  (by omega))
              simp only [parse_args]
              rw [if_pos hcc, hg2]
              dsimp only
              rw [htt]
              dsimp only
              rw [hsub2]
              exact hstab _ h2
          | Hsh =>
            rw [htt] at hok
            dsimp only at hok
            cases hsub : parse_func_call f (line.drop (c + i)) with
            | err e2 => rw [hsub] at hok; exact PResult.noConfusion hok
            | crash => rw [hsub] at hok; exact PResult.noConfusion hok
            | outOfFuel => rw [hsub] at hok; exact PResult.noConfusion hok
            | ok p =>
              obtain ⟨di, a⟩ := p
              rw [hsub] at hok
              dsimp only at hok
              obtain ⟨hslen, hsstab⟩ := ihF (line.drop (c + i)) di a hsub
              have hdroplen : (line.drop (c + i)).length = line.length - (c + i) :=
                List.length_drop _ _
              have hslen2 : di + 1 ≤ line.length - (c + i) := by omega
              obtain ⟨hlen, hic2, hstab⟩ :=
                ihA line count (i + di) (c + 1) (args ++ [a]) n e hok (by omega)
              refine ⟨hlen, by omega, ?_⟩
              intro line2 h2
              have hg2 : line2.get? (c + i) = some ti := by
                rw [take_eq_get? line line2 (n + 1) (c + i) h2 (by omega)]
                exact hgp
              have hsub2 : parse_func_call f (line2.drop (c + i)) = .ok (di, a) :=
                hsstab _ (take_eq_drop_take line line2 (n + 1) (c + i) (di + 1) h2
                  (by omega))
              simp only [parse_args]
              rw [if_pos hcc, hg2]
              dsimp only
              rw [htt]
              dsimp only
              rw [hsub2]
              exact hstab _ h2
      · rw [if_neg hcc] at hok
        cases hg0 : line.get? 0 with
        | none => rw [hg0] at hok; exact PResult.noConfusion hok
        | some ti0 =>
          rw [hg0] at hok
          dsimp only at hok
          cases hb : buildFun ti0.token args with
          | none => rw [hb] at hok; exact PResult.noConfusion hok
          | some fn =>
            rw [hb] at hok
            dsimp only at hok
            injection hok with hok1
            injection hok1 with hn he
            have hlen1 : 0 < line.length := get?_some_lt hg0
            refine ⟨by omega, by omega, ?_⟩
            intro line2 h2
            have hg02 : line2.get? 0 = some ti0 := by
              rw [take_eq_get? line line2 (n + 1) 0 h2 (by omega)]
              exact hg0
            simp only [parse_args]
            rw [if_neg hcc, hg02]
            dsimp only
            rw [hb]
            dsimp only
            rw [hn, he]

/-- C3 counterexample: parsing the line `g:5` consumes all three of its tokens
(`Idn "g"`, `Col`, `Int 5`), but the first component returned by
`parse_func_call` is 2, not 3. -/
theorem c3_returned_count_counterexample :
    parse_func_call 4 lineG5 = .ok (2, .FunCall (.Get (.Value (.Int 5)))) ∧
    lineG5.length = 3 ∧ (2 : Nat) ≠ 3 :=
  ⟨rfl, rfl, by decide⟩

/-- C3 (amended): when `parse_func_call` succeeds on a token line with first
component `n`, the call consumed exactly the first `n + 1` tokens — one more
than the returned count: the line has at least `n + 1` tokens, and replacing
everything after those `n + 1` tokens by arbitrary tokens leaves the result
unchanged.  (The outer caller adds `n` to its cursor and its own per-argument
counter increment accounts for the remaining token, landing exactly past the
parsed call; e.g. `$` consumes one token and the parser returns 0, and `g:5`
consumes three tokens and the parser returns 2.) -/
theorem c3_consumed_is_returned_plus_one (fuel n : Nat) (e : Expr)
    (line rest : List TokenInfo)
    (h : parse_func_call fuel line = .ok (n, e)) :
    n + 1 ≤ line.length ∧
    parse_func_call fuel (line.take (n + 1) ++ rest) = .ok (n, e) := by
  obtain ⟨hlen, hstab⟩ := (consumed_invariant fuel).1 line n e h
  refine ⟨hlen, hstab _ ?_⟩
  rw [List.take_append_of_le_length (by rw [List.length_take]; omega)]
  rw [List.take_take]
  simp

/-- Witness for C3 (amended) at the line `g:5` with a junk token appended. -/
theorem c3_consumed_is_returned_plus_one_witness :
    2 + 1 ≤ lineG5.length ∧
    parse_func_call 4 (lineG5.take (2 + 1) ++ [⟨.Int 9, 9, 9⟩]) =
      .ok (2, .FunCall (.Get (.Value (.Int 5)))) :=
  c3_consumed_is_returned_plus_one 4 2 (.FunCall (.Get (.Value (.Int 5))))
    lineG5 [⟨.Int 9, 9, 9⟩] rfl

/-! ## Decimal round trip (for the Text∘Number claim) -/

theorem digitVal_lt (c : Char) (h : isDigitChar c = true) : digitVal c < 10 := by
  simp only [isDigitChar, Bool.and_eq_true, decide_eq_true_eq] at h
  unfold digitVal
  omega

theorem digitChar_digitVal (c : Char) (h : isDigitChar c = true) :
    digitChar (digitVal c) = c := by
  simp only [isDigitChar, Bool.and_eq_true, decide_eq_true_eq] at h
  unfold digitChar digitVal
  rw [show 48 + (c.toNat - 48) = c.toNat by omega, Char.ofNat_toNat]

theorem toNat_zero_char : ('0' : Char).toNat = 48 := rfl

theorem digitsVal_append (ds : List Char) (c : Char) :
    digitsVal (ds ++ [c]) = 10 * digitsVal ds + digitVal c := by
  induction ds with
  | nil => simp [digitsVal]
  | cons d t ih =>
    show digitVal d * 10 ^ (t ++ [c]).length + digitsVal (t ++ [c]) =
      10 * (digitVal d * 10 ^ t.length + digitsVal t) + digitVal c
    rw [ih, List.length_append]
    simp only [List.length_singleton]
    ring

theorem digitsVal_pos (d : Char) (t : List Char) (hd : isDigitChar d = true)
    (h0 : d ≠ '0') : 0 < digitsVal (d :: t) := by
  have hv : 1 ≤ digitVal d := by
    simp only [isDigitChar, Bool.and_eq_true, decide_eq_true_eq] at hd
    have : d.toNat ≠ 48 := by
      intro hc
      apply h0
      have hh := Char.ofNat_toNat d
      rw [hc] at hh
      rw [← hh]
    unfold digitVal
    omega
  have hp : 0 < (10 : Nat) ^ t.length := Nat.pos_pow_of_pos _ (by omega)
  calc 0 < digitVal d * 10 ^ t.length := Nat.mul_pos (by omega) hp
    _ ≤ digitsVal (d :: t) := by simp [digitsVal]

theorem natDigitsAux_irrel : ∀ f f2 n : Nat, n < f → n < f2 →
    natDigitsAux f n = natDigitsAux f2 n := by
  intro f
  induction f with
  | zero => intro f2 n h1 _; omega
  | succ f ih =>
    intro f2 n h1 h2
    cases f2 with
    | zero => omega
    | succ f2 =>
      simp only [natDigitsAux]
      by_cases hn : n < 10
      · rw [if_pos hn, if_pos hn]
      · rw [if_neg hn, if_neg hn]
        have hd : n / 10 < n := Nat.div_lt_self (by omega) (by omega)
        rw [ih f2 (n / 10) (by omega) (by omega)]

theorem natDigits_eq (n : Nat) :
    natDigits n = if n < 10 then [digitChar n]
      else natDigits (n / 10) ++ [digitChar (n % 10)] := by
  by_cases hn : n < 10
  · rw [if_pos hn]
    unfold natDigits
    simp only [natDigitsAux, if_pos hn]
  · rw [if_neg hn]
    have hd : n / 10 < n := Nat.div_lt_self (by omega) (by omega)
    have h1 : natDigits n = natDigitsAux n (n / 10) ++ [digitChar (n % 10)] := by
      unfold natDigits
      simp only [natDigitsAux, if_neg hn]
    have h2 : natDigitsAux n (n / 10) = natDigits (n / 10) := by
      unfold natDigits
      exact natDigitsAux_irrel n (n / 10 + 1) (n / 10) (by omega) (by omega)
    rw [h1, h2]

theorem natDigits_digitsVal : ∀ ds : List Char, ds ≠ [] →
    ds.all isDigitChar = true →
    (ds.headD default ≠ '0' ∨ ds = ['0']) →
    natDigits (digitsVal ds) = ds := by
  intro ds
  induction ds using List.reverseRecOn with
  | nil => intro h _ _; exact absurd rfl h
  | append_singleton init c ih =>
    intro _ hall hcanon
    have hallc : init.all isDigitChar = true ∧ isDigitChar c = true := by
      simpa using hall
    rw [digitsVal_append]
    have hb : digitVal c < 10 := digitVal_lt c hallc.2
    cases hinit : init with
    | nil =>
      subst hinit
      simp only [digitsVal, Nat.mul_zero, Nat.zero_add]
      rw [natDigits_eq, if_pos hb, digitChar_digitVal c hallc.2]
      rfl
    | cons d t =>
      subst hinit
      have hdd : isDigitChar d = true := by
        have := hallc.1
        simp at this
        exact this.1
      have hd0 : d ≠ '0' := by
        rcases hcanon with h | h
        · simpa using h
        · exact absurd (congrArg List.length h) (by simp)
      have hA : 0 < digitsVal (d :: t) := digitsVal_pos d t hdd hd0
      rw [natDigits_eq,
        if_neg (by omega : ¬ 10 * digitsVal (d :: t) + digitVal c < 10)]
      have hdiv : (10 * digitsVal (d :: t) + digitVal c) / 10 = digitsVal (d :: t) := by
        omega
      have hmod : (10 * digitsVal (d :: t) + digitVal c) % 10 = digitVal c := by
        omega
      rw [hdiv, hmod, digitChar_digitVal c hallc.2,
        ih (by simp) hallc.1 (Or.inl (by simpa using hd0))]

theorem digit_ne_minus (c : Char) (h : isDigitChar c = true) :
    ¬ c = '-' := by
  simp only [isDigitChar, Bool.and_eq_true, decide_eq_true_eq] at h
  intro hc
  rw [hc] at h
  simp at h

theorem digit_ne_plus (c : Char) (h : isDigitChar c = true) :
    ¬ c = '+' := by
  simp only [isDigitChar, Bool.and_eq_true, decide_eq_true_eq] at h
  intro hc
  rw [hc] at h
  simp at h

theorem parseIsize_negative (rest : List Char) (hne : rest.isEmpty = false)
    (hall : rest.all isDigitChar = true)
    (hlo : -((isizeMax : Int) + 1) ≤ -((digitsVal rest : Nat) : Int)) :
    parseIsize ⟨'-' :: rest⟩ = some (-((digitsVal rest : Nat) : Int)) := by
  have hM : (isizeMax : Int) = 9223372036854775807 := rfl
  have hx : (0 : Int) ≤ ((digitsVal rest : Nat) : Int) := Int.natCast_nonneg _
  simp only [parseIsize]
  simp [hne, hall]
  omega

theorem parseIsize_positive (c : Char) (rest : List Char)
    (hall : (c :: rest).all isDigitChar = true)
    (hhi : ((digitsVal (c :: rest) : Nat) : Int) ≤ (isizeMax : Int)) :
    parseIsize ⟨c :: rest⟩ = some ((digitsVal (c :: rest) : Nat) : Int) := by
  have hc : isDigitChar c = true := by
    simp only [List.all_cons, Bool.and_eq_true] at hall
    exact hall.1
  have hM : (isizeMax : Int) = 9223372036854775807 := rfl
  have hx : (0 : Int) ≤ ((digitsVal (c :: rest) : Nat) : Int) := Int.natCast_nonneg _
  simp only [parseIsize]
  simp [digit_ne_minus c hc, digit_ne_plus c hc, hall]
  omega

theorem intToString_neg (x : Nat) (hx : 0 < x) :
    intToString (-(x : Int)) = "-" ++ String.mk (natDigits x) := by
  unfold intToString
  rw [if_pos (by omega)]
  congr 2
  simp

theorem intToString_nonneg (x : Nat) :
    intToString ((x : Nat) : Int) = String.mk (natDigits x) := by
  unfold intToString
  rw [if_neg (by omega)]
  simp

theorem minus_append (l : List Char) :
    "-" ++ String.mk l = String.mk ('-' :: l) := rfl

theorem decimal_roundtrip (s : String) (h1 : isCanonicalDecimal s = true)
    (h2 : -((isizeMax : Int) + 1) ≤ decStrVal s ∧
      decStrVal s ≤ (isizeMax : Int)) :
    parseIsize s = some (decStrVal s) ∧ intToString (decStrVal s) = s := by
  obtain ⟨data⟩ := s
  cases data with
  | nil => simp [isCanonicalDecimal] at h1
  | cons c rest =>
    by_cases hcm : c = '-'
    · subst hcm
      simp only [isCanonicalDecimal, String.data, if_true, Bool.and_eq_true,
        Bool.not_eq_true', bne_iff_ne] at h1
      obtain ⟨⟨hne, hall⟩, hhd⟩ := h1
      have hdec : decStrVal ⟨'-' :: rest⟩ = -((digitsVal rest : Nat) : Int) := by
        simp [decStrVal]
      rw [hdec] at h2 ⊢
      obtain ⟨d, t, rfl⟩ : ∃ d t, rest = d :: t := by
        cases rest with
        | nil => simp at hne
        | cons d t => exact ⟨d, t, rfl⟩
      have hdd : isDigitChar d = true := by
        simp only [List.all_cons, Bool.and_eq_true] at hall
        exact hall.1
      have hd0 : d ≠ '0' := by simpa using hhd
      have hx : 0 < digitsVal (d :: t) := digitsVal_pos d t hdd hd0
      constructor
      · exact parseIsize_negative (d :: t) rfl hall h2.1
      · rw [intToString_neg _ hx,
          natDigits_digitsVal (d :: t) (by simp) hall (Or.inl (by simpa using hd0))]
        exact minus_append (d :: t)
    · simp only [isCanonicalDecimal, String.data] at h1
      rw [if_neg hcm] at h1
      simp only [Bool.and_eq_true, Bool.or_eq_true, bne_iff_ne, beq_iff_eq] at h1
      obtain ⟨hall, hcanon⟩ := h1
      have hdec : decStrVal ⟨c :: rest⟩ = ((digitsVal (c :: rest) : Nat) : Int) := by
        simp [decStrVal, hcm]
      rw [hdec] at h2 ⊢
      constructor
      · exact parseIsize_positive c rest hall h2.2
      · rw [intToString_nonneg,
          natDigits_digitsVal (c :: rest) (by simp) hall (by simpa using hcanon)]

theorem exec_call_Text (prog : List InstrInfo) (labels : List (String × Nat))
    (f : Nat) (e : Expr) (σ : State) :
    exec prog labels (f + 1) (.call (.Text e)) σ =
      match exec prog labels f (.arg e) σ with
      | .ok v σ1 =>
        match v with
        | .Int n => .ok (.Str (intToString n)) σ1
        | _ => .sig (.error ⟨.TypeError (.Int 0) v, .Text e, none⟩) σ1
      | r => r := rfl

theorem exec_call_Number (prog : List InstrInfo) (labels : List (String × Nat))
    (f : Nat) (e : Expr) (σ : State) :
    exec prog labels (f + 1) (.call (.Number e)) σ =
      match exec prog labels f (.arg e) σ with
      | .ok v σ1 =>
        match v with
        | .Str s =>
          match parseIsize s with
          | some n => .ok (.Int n) σ1
          | none =>
            .sig (.error ⟨.ValueError v, .Number e,
              some ("Cannot convert " ++ valueDisplay v ++ " to an Int")⟩) σ1
        | _ => .sig (.error ⟨.TypeError (.Int 0) v, .Number e, none⟩) σ1
      | r => r := rfl

/-- C9: for every canonical decimal string `s` whose value fits in the 64-bit
`isize` range, `Text(Number(Str(s)))` yields `Str(s)` — the
string → integer → string round trip is the identity on canonical decimal
strings. -/
theorem c9_text_number_roundtrip (prog : List InstrInfo)
    (labels : List (String × Nat)) (f : Nat) (σ : State) (s : String)
    (h1 : isCanonicalDecimal s = true)
    (h2 : -((isizeMax : Int) + 1) ≤ decStrVal s ∧
      decStrVal s ≤ (isizeMax : Int)) :
    interpret_fun_call prog labels (f + 3)
      (.Text (.FunCall (.Number (.Value (.Str s))))) σ = .ok (.Str s) σ := by
  obtain ⟨hp, hts⟩ := decimal_roundtrip s h1 h2
  simp only [interpret_fun_call]
  rw [exec_call_Text, exec_arg_funCall, exec_call_Number, exec_arg_value]
  dsimp only
  rw [hp]
  dsimp only
  rw [hts]

/-- Witness for C9 at the canonical decimal string `"-45"`. -/
theorem c9_text_number_roundtrip_witness :
    interpret_fun_call [] [] 3
      (.Text (.FunCall (.Number (.Value (.Str "-45"))))) State.empty =
      .ok (.Str "-45") State.empty :=
  c9_text_number_roundtrip [] [] 0 State.empty "-45" (by decide)
    ⟨by decide, by decide⟩
